import Mathlib

/-!
Verification development for the `xprezzo-bytes` byte-count conversion
library (`src/index.js`).

The JavaScript source is shallowly embedded as follows.

* JavaScript numbers are modelled by `JSNum`: `NaN`, the two infinities,
  and finite values idealised as exact rationals.  Every arithmetic step
  the library performs on the inputs appearing in the claims (division by
  a power of 1024, multiplication by a unit multiplier, `Math.floor`,
  `toFixed` rounding) is exact on IEEE doubles for the magnitudes the
  library is about, so the rational idealisation is faithful where the
  claims live.
* Strings are modelled as `String` / `List Char`.
* `Number.prototype.toFixed` is fallible in JavaScript (it throws a
  `RangeError` when its argument is outside `0..100`); it is therefore
  embedded with an `Option` result, and `format` returns a `FormatOut`
  value that can record a thrown exception.
* The regular expressions of the source are embedded as recursive
  functions on `List Char`; each one is deterministic (no alternative
  backtracking parses exist), so the functional embedding computes the
  same match as the regex engine.
-/

/-- Numeric value of a decimal digit character (`'0'` ↦ 0, …). -/
def charVal (c : Char) : ℕ := c.toNat - 48

/-- Fuelled little-endian base-10 digit extraction (structural recursion so
that the kernel can evaluate it). -/
def natDigitsAux : ℕ → ℕ → List ℕ
  | 0, _ => []
  | _ + 1, 0 => []
  | fuel + 1, n + 1 => (n + 1) % 10 :: natDigitsAux fuel ((n + 1) / 10)

/-- Little-endian base-10 digits of a natural number (`natDigitsLE 0 = []`). -/
def natDigitsLE (n : ℕ) : List ℕ := natDigitsAux n n

/-- Big-endian digit list of `n`, as numbers; `[0]` for `n = 0`. -/
def natReprDigits (n : ℕ) : List ℕ :=
  if n = 0 then [0] else (natDigitsLE n).reverse

/-- Decimal rendering of a natural number as characters. -/
def natRepr (n : ℕ) : List Char := (natReprDigits n).map Nat.digitChar

/-- Value of a big-endian digit list. -/
def digitsToNat (ds : List ℕ) : ℕ := ds.foldl (fun a d => 10 * a + d) 0

/-- A JavaScript number: `NaN`, `+Infinity`, `-Infinity`, or a finite value
(idealised as an exact rational). -/
inductive JSNum where
  | nan : JSNum
  | posInf : JSNum
  | negInf : JSNum
  | fin : ℚ → JSNum
deriving DecidableEq

/-- `Number.isFinite` of the source (line 68). -/
def JSNum.isFinite : JSNum → Bool
  | .fin _ => true
  | _ => false

/-- A JavaScript runtime value as inspected by the module's dispatching
entry point: a number, a string, or anything else. -/
inductive JSValue where
  | num : JSNum → JSValue
  | str : String → JSValue
  | other : JSValue
deriving DecidableEq

/-! ## The unit table

Source lines 14–21: the object literal `map` from unit keys to multipliers
(`b: 1, kb: 1 << 10, mb: 1 << 20, gb: 1 << 30, tb: 1024^4, pb: 1024^5`),
embedded as a finite lookup on lower-case key strings.  An absent own key
gives `none` (the JavaScript lookup gives `undefined`, which is falsy) —
but a plain object inherits from `Object.prototype`, so `map[k]` is also
truthy for the inherited property names; since `format` lower-cases the
key first, the reachable inherited hits are exactly `constructor` and
`__proto__` (the other `Object.prototype` names contain upper-case
letters).  Their values are not numbers, so dividing by them yields
`NaN`. -/

/-- The own properties of the `map` constant of the source: unit key
(lower case) ↦ multiplier. -/
def byteUnitMap : List Char → Option ℕ
  | ['b'] => some 1
  | ['k', 'b'] => some 1024
  | ['m', 'b'] => some 1048576
  | ['g', 'b'] => some 1073741824
  | ['t', 'b'] => some 1099511627776
  | ['p', 'b'] => some 1125899906842624
  | _ => none

/-- The all-lower-case `Object.prototype` property names that a lowered
unit key can hit through the prototype chain of the `map` object literal:
`map['constructor']` is `Object.prototype.constructor` (a function) and
`map['__proto__']` is `Object.prototype` itself — both truthy, neither a
number. -/
def protoKey (cs : List Char) : Bool :=
  cs == "constructor".data || cs == "__proto__".data

/-- Truthiness of the JavaScript lookup `map[cs]`: an own unit key (whose
multipliers are all non-zero, hence truthy) or an inherited
`Object.prototype` property. -/
def mapTruthy (cs : List Char) : Bool :=
  (byteUnitMap cs).isSome || protoKey cs

/-! ## The parser (`parse`, source lines 112–134)

The strict pattern is `parseRegExp = /^((-|\+)?(\d+(?:\.\d+)?)) *(kb|mb|gb|tb|pb)$/i`
(source line 22).  The regex is deterministic: the digit runs, the optional
fraction, the space run and the unit token draw from pairwise disjoint
character classes, so no backtracking alternative exists and the
longest-run functional scanner below computes exactly the regex match.
The scanner returns the matched pieces as naturals (sign, integer digits,
fraction digits, fraction length, multiplier); `parse` assembles the
rational value from them exactly as `parseFloat` does on the matched
numeral. -/

/-- Leading-sign split: consumes one `-` or `+` if present, returning
whether the value is negated and the rest. -/
def splitSign (cs : List Char) : Bool × List Char :=
  match cs with
  | c :: r => if c = '-' then (true, r) else if c = '+' then (false, r) else (false, cs)
  | [] => (false, [])

/-- Longest prefix of decimal digits, as digit values, plus the rest. -/
def takeDigits : List Char → List ℕ × List Char
  | [] => ([], [])
  | c :: cs =>
    if c.isDigit then
      let p := takeDigits cs
      (charVal c :: p.1, p.2)
    else ([], c :: cs)

/-- The pieces of a successful strict-pattern match: sign, integer part,
fraction digits value, number of fraction digits, unit multiplier. -/
structure StrictParts where
  neg : Bool
  intPart : ℕ
  fracPart : ℕ
  fracLen : ℕ
  mult : ℕ
deriving DecidableEq

/-- The unit alternatives `(kb|mb|gb|tb|pb)` with the `i` flag: the whole
remaining input, lower-cased, must be one of the five tokens. -/
def strictUnitOf (cs : List Char) : Option ℕ :=
  match cs.map Char.toLower with
  | ['k', 'b'] => some 1024
  | ['m', 'b'] => some 1048576
  | ['g', 'b'] => some 1073741824
  | ['t', 'b'] => some 1099511627776
  | ['p', 'b'] => some 1125899906842624
  | _ => none

/-- Optional fraction `(?:\.\d+)?`: if a `.` follows but no digit does, the
group fails and matching resumes at the `.` (which then fails the unit
part, as in the regex). -/
def splitFrac (cs : List Char) : (ℕ × ℕ) × List Char :=
  match cs with
  | c :: r =>
    if c = '.' then
      let p := takeDigits r
      if p.1.isEmpty then ((0, 0), c :: r) else ((digitsToNat p.1, p.1.length), p.2)
    else ((0, 0), c :: r)
  | [] => ((0, 0), [])

/-- Functional embedding of `parseRegExp.exec` (source lines 22 and 120):
`some` exactly when the regex matches, with the extracted pieces. -/
def strictMatch (cs : List Char) : Option StrictParts :=
  let s := splitSign cs
  let ip := takeDigits s.2
  if ip.1.isEmpty then none
  else
    let fr := splitFrac ip.2
    let rest := fr.2.dropWhile (· = ' ')
    match strictUnitOf rest with
    | none => none
    | some m => some ⟨s.1, digitsToNat ip.1, fr.1.1, fr.1.2, m⟩

/-- JavaScript whitespace recognised by `parseInt` (the ASCII part; the
claims never reach the exotic Unicode space points). -/
def isJsSpace (c : Char) : Bool :=
  c = ' ' ∨ c = '\t' ∨ c = '\n' ∨ c = '\r' ∨ c.toNat = 11 ∨ c.toNat = 12

/-- `parseInt(val, 10)` (source line 126): skip leading whitespace, an
optional sign, then the longest digit prefix; `none` models the `NaN`
result when no digit is found. -/
def parseIntRadix10 (cs : List Char) : Option (Bool × ℕ) :=
  let s := splitSign (cs.dropWhile isJsSpace)
  let ds := takeDigits s.2
  if ds.1.isEmpty then none else some (s.1, digitsToNat ds.1)

/-- Signed rational from a sign bit and a magnitude. -/
def signedVal (neg : Bool) (q : ℚ) : ℚ := if neg then -q else q

/-- `parse` (source lines 112–134).  A number that is not `NaN` is passed
through; a non-string non-number gives `null` (`none`); a string is run
against the strict pattern and otherwise falls back to `parseInt`, and the
chosen multiplier times the extracted value is floored (`Math.floor`,
which on `NaN` gives `NaN`). -/
def parse (val : JSValue) : Option JSNum :=
  match val with
  | .num x => if x = .nan then none else some x
  | .other => none
  | .str s =>
    match strictMatch s.data with
    | some p =>
      some (.fin ((⌊(p.mult : ℚ) * signedVal p.neg ((p.intPart : ℚ) + (p.fracPart : ℚ) / 10 ^ p.fracLen)⌋ : ℤ) : ℚ))
    | none =>
      match parseIntRadix10 s.data with
      | none => some .nan
      | some (neg, n) => some (.fin ((⌊(1 : ℚ) * signedVal neg (n : ℚ)⌋ : ℤ) : ℚ))

/-! ## The formatter (`format`, source lines 67–101) -/

/-- Options recognised by `format` (source lines 72–76), with the
JavaScript defaults: `decimalPlaces` distinguishes "absent"
(`undefined`, giving 2) from an explicit value, the separators default to
the empty string (any falsy value behaves the same), `unit` defaults to
the empty string (auto-selection). -/
structure FormatOptions where
  decimalPlaces : Option ℤ := none
  fixedDecimals : Bool := false
  thousandsSeparator : String := ""
  unitSeparator : String := ""
  unit : String := ""
deriving DecidableEq

/-- Outcome of `format`: a string, the `null` sentinel, or a thrown
exception (`toFixed` throws a `RangeError` outside `0..100`). -/
inductive FormatOut where
  | toStr : String → FormatOut
  | jsNull : FormatOut
  | jsThrow : FormatOut
deriving DecidableEq

/-- The auto-selection cascade of source lines 78–90: compare the
magnitude against each multiplier from largest to smallest with `>=`. -/
def selectUnitName (mag : ℚ) : String :=
  if mag ≥ 1125899906842624 then "PB"
  else if mag ≥ 1099511627776 then "TB"
  else if mag ≥ 1073741824 then "GB"
  else if mag ≥ 1048576 then "MB"
  else if mag ≥ 1024 then "KB"
  else "B"

/-- Source line 77: keep `options.unit` if it is non-empty and the lookup
of its lower-casing is truthy — an own unit key or an inherited
`Object.prototype` name such as `constructor`; otherwise auto-select. -/
def resolveUnit (u : String) (mag : ℚ) : String :=
  if u = "" ∨ mapTruthy (u.data.map Char.toLower) = false then selectUnitName mag else u

/-- Multiplier of the auto-selected unit (helper mirroring
`selectUnitName`; the correspondence is proved below). -/
def autoMultiplier (mag : ℚ) : ℕ :=
  if mag ≥ 1125899906842624 then 1125899906842624
  else if mag ≥ 1099511627776 then 1099511627776
  else if mag ≥ 1073741824 then 1073741824
  else if mag ≥ 1048576 then 1048576
  else if mag ≥ 1024 then 1024
  else 1

/-- The bare decimal digit characters of `n` (empty for `n = 0`). -/
def fixedRaw (n : ℕ) : List Char :=
  if n = 0 then [] else ((natDigitsLE n).reverse).map Nat.digitChar

/-- The digits of `n` left-padded with zeros to at least `d + 1` digits. -/
def fixedPadded (d n : ℕ) : List Char :=
  List.replicate (d + 1 - (fixedRaw n).length) '0' ++ fixedRaw n

/-- Fixed-point digit string of the natural `n` with `d` decimals:
`n` rendered in decimal, left-padded with zeros to at least `d + 1`
digits, with a point inserted before the last `d` digits (no point when
`d = 0`).  This is the digit layout `toFixed` produces for the rounded
scaled value `n`. -/
def fixedDigits (d : ℕ) (n : ℕ) : List Char :=
  if d = 0 then fixedPadded d n
  else (fixedPadded d n).take ((fixedPadded d n).length - d) ++
    '.' :: (fixedPadded d n).drop ((fixedPadded d n).length - d)

/-- `ToString` of an integer magnitude at or above `10^21` in JavaScript's
exponential notation: the significant digits (trailing zeros removed),
with a point after the first digit when more than one remains, then `e+`
and the exponent (one less than the digit count).  The digits themselves
are the exact ones of `n` — the idealisation of the double's
shortest-representation digits, which coincide on the claims'
kernel-evaluated instances. -/
def expRepr (n : ℕ) : List Char :=
  let ds := natRepr n
  let sig := (ds.reverse.dropWhile (· = '0')).reverse
  match sig with
  | [] => ['0']
  | [c] => c :: 'e' :: '+' :: natRepr (ds.length - 1)
  | c :: rest => c :: '.' :: (rest ++ 'e' :: '+' :: natRepr (ds.length - 1))

/-- `val.toFixed(d)` for finite `val`, `0 ≤ d ≤ 100` (ECMA-262
`Number.prototype.toFixed`): a leading `-` for negative values, then, for
magnitudes below `10^21`, the magnitude scaled by `10^d` and rounded to
the nearest integer (ties away from zero) laid out with `fixedDigits`.
Magnitudes at or above `10^21` fall back to `Number`-to-`String`, which
at that size (always an integer double) uses exponential notation,
rendered by `expRepr`. -/
def toFixedStr (d : ℕ) (q : ℚ) : List Char :=
  let sgn : List Char := if q < 0 then ['-'] else []
  let x : ℚ := |q|
  if x ≥ 10 ^ 21 then sgn ++ expRepr ⌊x⌋.toNat
  else sgn ++ fixedDigits d ⌊x * 10 ^ d + 1 / 2⌋.toNat

/-- `val.toFixed(decimalPlaces)` with the `RangeError` behaviour: `none`
models the thrown exception when the digit count is outside `0..100`. -/
def jsToFixed (d : ℤ) (q : ℚ) : Option (List Char) :=
  if d < 0 ∨ 100 < d then none else some (toFixedStr d.toNat q)

/-- Attempted match of `formatDecimalsRegExp = /(?:\.0*|(\.[^0]+)0+)$/`
(source line 13) at a `.` whose following text is `t`: the first
alternative fires when everything after the point is `0`s (group 1 empty,
so the replacement erases the match); the second fires when a nonempty
run of non-`0` characters is followed by a nonempty run of `0`s reaching
the end (the replacement keeps the point and the non-`0` run). -/
def stripMatchAt (t : List Char) : Option (List Char) :=
  if t.all (· = '0') then some []
  else
    let a := t.takeWhile (· ≠ '0')
    let b := t.drop a.length
    if ¬a.isEmpty ∧ ¬b.isEmpty ∧ b.all (· = '0') then some ('.' :: a) else none

/-- `str.replace(formatDecimalsRegExp, '$1')` (source line 95).  Both
regex alternatives are anchored at the end of the string, so a match is
determined by the position of its `.`; `String.replace` takes the
leftmost match, i.e. the first `.` from the left whose tail fits one of
the two alternatives. -/
def jsStripDecimals : List Char → List Char
  | [] => []
  | c :: cs =>
    if c = '.' then
      match stripMatchAt cs with
      | some rep => rep
      | none => c :: jsStripDecimals cs
    else c :: jsStripDecimals cs

/-- The word characters `\w` of JavaScript regexes: digits, letters and
underscore. -/
def isWordChar (c : Char) : Bool :=
  c.isDigit ∨ ('a' ≤ c ∧ c ≤ 'z') ∨ ('A' ≤ c ∧ c ≤ 'Z') ∨ c = '_'

/-- Does `formatThousandsRegExp = /\B(?=(\d{3})+(?!\d))/` (source line 12)
match at the position between `prev` (`none` at the start of the string)
and the remaining text `rest`?  `\B` holds when both neighbours have the
same word-character status, and the lookahead holds when the digit run
starting at the position has positive length divisible by 3. -/
def thousandsPos (prev : Option Char) (rest : List Char) : Bool :=
  match rest with
  | [] => false
  | c :: _ =>
    let nb : Bool :=
      match prev with
      | none => ¬isWordChar c
      | some p => isWordChar p = isWordChar c
    let run := (rest.takeWhile Char.isDigit).length
    nb ∧ 0 < run ∧ run % 3 = 0

/-- One pass of `str.replace(formatThousandsRegExp, sep)` from a given
previous character. -/
def jsThousandsAux (sep : List Char) (prev : Option Char) : List Char → List Char
  | [] => []
  | c :: cs =>
    (if thousandsPos prev (c :: cs) then sep else []) ++ c :: jsThousandsAux sep (some c) cs

/-- `str.replace(formatThousandsRegExp, thousandsSeparator)` (source line
98): the separator is inserted at every matching (empty) position; the
replacement text is inserted literally (the embedding does not model `$`
escapes inside the separator). -/
def jsThousands (sep : List Char) (s : List Char) : List Char :=
  jsThousandsAux sep none s

/-- `format` (source lines 67–101).  When the resolved unit is an own key
of the map, the value is divided by its multiplier and rendered; when it
is an inherited `Object.prototype` name (reachable only through a forced
`options.unit`), the division by a non-number gives `NaN`, whose
`toFixed` — after the same `RangeError` check — is the string `"NaN"`,
which then runs through the same stripping and grouping passes. -/
def format (value : JSNum) (options : FormatOptions) : FormatOut :=
  match value with
  | .fin q =>
    let mag : ℚ := |q|
    let tsep : List Char := options.thousandsSeparator.data
    let usep : List Char := options.unitSeparator.data
    let d : ℤ := options.decimalPlaces.getD 2
    let unit : String := resolveUnit options.unit mag
    match byteUnitMap (unit.data.map Char.toLower) with
    | some mult =>
      let val : ℚ := q / (mult : ℚ)
      match jsToFixed d val with
      | none => .jsThrow
      | some s0 =>
        let s1 := if options.fixedDecimals then s0 else jsStripDecimals s0
        let s2 := if tsep.isEmpty then s1 else jsThousands tsep s1
        .toStr ⟨s2 ++ usep ++ unit.data⟩
    | none =>
      if d < 0 ∨ 100 < d then .jsThrow
      else
        let s0 : List Char := ['N', 'a', 'N']
        let s1 := if options.fixedDecimals then s0 else jsStripDecimals s0
        let s2 := if tsep.isEmpty then s1 else jsThousands tsep s1
        .toStr ⟨s2 ++ usep ++ unit.data⟩
  | _ => .jsNull

/-- Outcome of the dispatching entry point. -/
inductive ConvOut where
  | strOut : String → ConvOut
  | numOut : JSNum → ConvOut
  | nullOut : ConvOut
  | throwOut : ConvOut
deriving DecidableEq

/-- The exported dispatcher (source lines 38–48): strings go to `parse`,
numbers go to `format`, anything else gives `null`. -/
def convert (value : JSValue) (options : FormatOptions) : ConvOut :=
  match value with
  | .str s =>
    match parse (.str s) with
    | some x => .numOut x
    | none => .nullOut
  | .num x =>
    match format x options with
    | .toStr s => .strOut s
    | .jsNull => .nullOut
    | .jsThrow => .throwOut
  | .other => .nullOut

/-! ## Claim-side constructions

These definitions follow the wording of the specification's claims (not
the source): the shape of a "number plus unit" string, and grouping every
three digits from the right. -/

/-- An optional leading sign: `none` for no sign, `some true` for `-`,
`some false` for `+`. -/
def signChars : Option Bool → List Char
  | none => []
  | some true => ['-']
  | some false => ['+']

/-- Whether an optional sign denotes negation. -/
def signNeg : Option Bool → Bool
  | none => false
  | some b => b

/-- A string of the shape the spec's strict grammar describes: optional
sign, integer digits, optional `.` and fraction digits, spaces, unit
token. -/
def mkSizeStr (sgn : Option Bool) (ip : List ℕ) (fp : Option (List ℕ)) (nsp : ℕ)
    (u : List Char) : List Char :=
  signChars sgn ++ ip.map Nat.digitChar ++
    (match fp with
     | none => []
     | some fs => '.' :: fs.map Nat.digitChar) ++
    List.replicate nsp ' ' ++ u

/-- The numeric value of the numeral part of such a string. -/
def sizeNumValue (sgn : Option Bool) (ip : List ℕ) (fp : Option (List ℕ)) : ℚ :=
  signedVal (signNeg sgn)
    ((digitsToNat ip : ℚ) +
      (match fp with
       | none => 0
       | some fs => (digitsToNat fs : ℚ) / 10 ^ fs.length))

/-- All case variants of the five unit tokens the strict pattern accepts,
with their multipliers ("case-insensitive unit token from
{kb, mb, gb, tb, pb}"). -/
def strictUnitTokens : List (List Char × ℕ) :=
  [(['k', 'b'], 1024), (['K', 'b'], 1024), (['k', 'B'], 1024), (['K', 'B'], 1024),
   (['m', 'b'], 1048576), (['M', 'b'], 1048576), (['m', 'B'], 1048576), (['M', 'B'], 1048576),
   (['g', 'b'], 1073741824), (['G', 'b'], 1073741824), (['g', 'B'], 1073741824), (['G', 'B'], 1073741824),
   (['t', 'b'], 1099511627776), (['T', 'b'], 1099511627776), (['t', 'B'], 1099511627776), (['T', 'B'], 1099511627776),
   (['p', 'b'], 1125899906842624), (['P', 'b'], 1125899906842624), (['p', 'B'], 1125899906842624), (['P', 'B'], 1125899906842624)]

/-- Grouping every three characters from the right with a separator (the
spec's description of the thousands grouping). -/
def groupRight (sep : List Char) : List Char → List Char
  | [] => []
  | c :: cs =>
    c :: ((if cs.length % 3 = 0 ∧ cs ≠ [] then sep else []) ++ groupRight sep cs)

/-! ## Digit-list lemmas -/

theorem natDigitsAux_eq (fuel : ℕ) : ∀ n : ℕ, n ≤ fuel → natDigitsAux fuel n = Nat.digits 10 n := by
  induction fuel with
  | zero =>
    intro n hn
    interval_cases n
    simp [natDigitsAux]
  | succ fuel ih =>
    intro n hn
    match n with
    | 0 => simp [natDigitsAux]
    | m + 1 =>
      rw [natDigitsAux, Nat.digits_def' (by norm_num : (1 : ℕ) < 10) (Nat.succ_pos m)]
      congr 1
      exact ih _ (Nat.le_trans (Nat.le_of_lt_succ (Nat.div_lt_self (Nat.succ_pos m) (by norm_num)))
        (Nat.le_of_succ_le_succ hn))

theorem natDigitsLE_eq (n : ℕ) : natDigitsLE n = Nat.digits 10 n :=
  natDigitsAux_eq n n (Nat.le_refl n)

theorem digitsToNat_reverse (L : List ℕ) : digitsToNat L.reverse = Nat.ofDigits 10 L := by
  induction L with
  | nil => rfl
  | cons d L ih =>
    rw [List.reverse_cons, digitsToNat, List.foldl_append, Nat.ofDigits_cons]
    simp only [List.foldl]
    rw [digitsToNat] at ih
    rw [ih]
    ring

theorem digitsToNat_natDigitsLE_reverse (n : ℕ) : digitsToNat (natDigitsLE n).reverse = n := by
  rw [natDigitsLE_eq, digitsToNat_reverse, Nat.ofDigits_digits]

theorem digitsToNat_natReprDigits (n : ℕ) : digitsToNat (natReprDigits n) = n := by
  rw [natReprDigits]
  by_cases h : n = 0
  · subst h; rfl
  · rw [if_neg h, digitsToNat_natDigitsLE_reverse]

theorem natDigitsLE_lt (n : ℕ) : ∀ d ∈ natDigitsLE n, d < 10 := by
  rw [natDigitsLE_eq]
  intro d hd
  exact Nat.digits_lt_base (by norm_num) hd

theorem natReprDigits_lt (n : ℕ) : ∀ d ∈ natReprDigits n, d < 10 := by
  rw [natReprDigits]
  by_cases h : n = 0
  · subst h; intro d hd; simp at hd; omega
  · rw [if_neg h]
    intro d hd
    exact natDigitsLE_lt n d (List.mem_reverse.mp hd)

theorem natReprDigits_ne_nil (n : ℕ) : natReprDigits n ≠ [] := by
  rw [natReprDigits]
  by_cases h : n = 0
  · subst h; simp
  · rw [if_neg h]
    simp only [ne_eq, List.reverse_eq_nil_iff]
    rw [natDigitsLE_eq]
    simp [Nat.digits_eq_nil_iff_eq_zero, h]

theorem natDigitsLE_eq_nil_iff (n : ℕ) : natDigitsLE n = [] ↔ n = 0 := by
  rw [natDigitsLE_eq, Nat.digits_eq_nil_iff_eq_zero]

/-- All the character-level facts about decimal digit characters the
scanners need, for `d < 10`. -/
theorem digitChar_facts (d : ℕ) (hd : d < 10) :
    (Nat.digitChar d).isDigit = true ∧ charVal (Nat.digitChar d) = d ∧
    Nat.digitChar d ≠ '-' ∧ Nat.digitChar d ≠ '+' ∧ Nat.digitChar d ≠ '.' ∧
    Nat.digitChar d ≠ ' ' ∧ isJsSpace (Nat.digitChar d) = false ∧
    isWordChar (Nat.digitChar d) = true ∧ (Nat.digitChar d = '0' ↔ d = 0) := by
  interval_cases d <;> exact ⟨by decide, by decide, by decide, by decide, by decide,
    by decide, by decide, by decide, by decide⟩

/-! ## Scanner lemmas -/

theorem takeDigits_map_append (ds : List ℕ) (rest : List Char)
    (hds : ∀ d ∈ ds, d < 10)
    (hrest : ∀ c, rest.head? = some c → c.isDigit = false) :
    takeDigits (ds.map Nat.digitChar ++ rest) = (ds, rest) := by
  induction ds with
  | nil =>
    match rest with
    | [] => rfl
    | c :: cs =>
      have hc := hrest c rfl
      simp [takeDigits, hc]
  | cons d ds ih =>
    have hd := digitChar_facts d (hds d (List.mem_cons_self d ds))
    have ihh := ih (fun e he => hds e (List.mem_cons_of_mem d he))
    simp only [List.map_cons, List.cons_append, takeDigits, hd.1, if_true, List.append_eq,
      ihh, hd.2.1]

theorem splitSign_signChars (sgn : Option Bool) (tail : List Char)
    (htl : ∀ c, tail.head? = some c → c ≠ '-' ∧ c ≠ '+') :
    splitSign (signChars sgn ++ tail) = (signNeg sgn, tail) := by
  match sgn with
  | some true => simp [signChars, splitSign, signNeg]
  | some false => simp [signChars, splitSign, signNeg]
  | none =>
    rw [signChars, List.nil_append, signNeg]
    match tail with
    | [] => rfl
    | c :: cs =>
      have hc := htl c rfl
      simp [splitSign, hc.1, hc.2]

theorem dropWhile_replicate_space (n : ℕ) (rest : List Char)
    (hrest : ∀ c, rest.head? = some c → c ≠ ' ') :
    (List.replicate n ' ' ++ rest).dropWhile (· = ' ') = rest := by
  induction n with
  | zero =>
    match rest with
    | [] => rfl
    | c :: cs =>
      have hc := hrest c rfl
      simp [List.dropWhile, hc]
  | succ n ih => simpa [List.replicate_succ, List.dropWhile] using ih

/-- Master lemma: on a string of the strict shape, the scanner embedding
of `parseRegExp` extracts the sign, the digits and the unit.  The side
conditions on the unit token (non-empty, not starting with a digit, a
point, a space or a sign, and a successful lookup) are discharged by
`decide` at each of the twenty concrete tokens. -/
theorem strictMatch_mkSizeStr (sgn : Option Bool) (ip : List ℕ) (fp : Option (List ℕ))
    (nsp : ℕ) (u : List Char)
    (hip : ∀ d ∈ ip, d < 10) (hipne : ip ≠ [])
    (hfp : ∀ fs, fp = some fs → fs ≠ [] ∧ ∀ d ∈ fs, d < 10)
    (hune : u ≠ [])
    (huh : ∀ c, u.head? = some c → c.isDigit = false ∧ c ≠ '.' ∧ c ≠ ' ' ∧ c ≠ '-' ∧ c ≠ '+') :
    strictMatch (mkSizeStr sgn ip fp nsp u) =
      (strictUnitOf u).map (fun m => ⟨signNeg sgn, digitsToNat ip,
        (match fp with | none => 0 | some fs => digitsToNat fs),
        (match fp with | none => 0 | some fs => fs.length), m⟩) := by
  have husp : ∀ c, u.head? = some c → c ≠ ' ' := fun c hc => ((huh c hc).2.2).1
  have hspu : ∀ c, (List.replicate nsp ' ' ++ u).head? = some c → c.isDigit = false ∧ c ≠ '.' := by
    intro c hc
    match nsp with
    | n + 1 =>
      rw [List.replicate_succ, List.cons_append, List.head?_cons, Option.some_inj] at hc
      subst hc; exact ⟨by decide, by decide⟩
    | 0 =>
      rw [List.replicate, List.nil_append] at hc
      exact ⟨(huh c hc).1, (huh c hc).2.1⟩
  have hdrop : (List.replicate nsp ' ' ++ u).dropWhile (· = ' ') = u :=
    dropWhile_replicate_space nsp u husp
  obtain ⟨d0, ds0, rfl⟩ : ∃ d0 ds0, ip = d0 :: ds0 := by
    match ip with
    | d :: ds => exact ⟨d, ds, rfl⟩
    | [] => exact absurd rfl hipne
  have hd0 := digitChar_facts d0 (hip d0 (List.mem_cons_self d0 ds0))
  have hsgn : ∀ tail, (∀ c, tail.head? = some c → c ≠ '-' ∧ c ≠ '+') →
      splitSign (signChars sgn ++ tail) = (signNeg sgn, tail) := by
    intro tail htl
    match sgn with
    | some true => simp [signChars, splitSign, signNeg]
    | some false => simp [signChars, splitSign, signNeg]
    | none =>
      rw [signChars, List.nil_append, signNeg]
      match tail with
      | [] => rfl
      | c :: cs =>
        have hc := htl c rfl
        simp [splitSign, hc.1, hc.2]
  rcases fp with _ | fs
  · -- no fraction part
    have htail : ∀ c, (List.replicate nsp ' ' ++ u).head? = some c → c.isDigit = false :=
      fun c hc => (hspu c hc).1
    have htake : takeDigits ((d0 :: ds0).map Nat.digitChar ++ (List.replicate nsp ' ' ++ u)) =
        (d0 :: ds0, List.replicate nsp ' ' ++ u) :=
      takeDigits_map_append _ _ hip htail
    have hfrac : splitFrac (List.replicate nsp ' ' ++ u) =
        ((0, 0), List.replicate nsp ' ' ++ u) := by
      match hnsp : nsp with
      | n + 1 => simp [List.replicate_succ, splitFrac]
      | 0 =>
        rw [List.replicate, List.nil_append]
        match u with
        | [] => exact absurd rfl hune
        | c :: cs =>
          have hc := (huh c rfl).2.1
          simp [splitFrac, hc]
    have hsplit : splitSign (mkSizeStr sgn (d0 :: ds0) none nsp u) =
        (signNeg sgn, (d0 :: ds0).map Nat.digitChar ++ (List.replicate nsp ' ' ++ u)) := by
      have := hsgn ((d0 :: ds0).map Nat.digitChar ++ (List.replicate nsp ' ' ++ u))
        (fun c hc => by
          rw [List.map_cons, List.cons_append, List.head?_cons, Option.some_inj] at hc
          subst hc
          exact ⟨hd0.2.2.1, hd0.2.2.2.1⟩)
      rw [mkSizeStr]
      simpa [List.append_assoc] using this
    simp only [strictMatch, hsplit, htake, hfrac, hdrop, List.isEmpty_cons]
    rcases strictUnitOf u with _ | m <;> rfl
  · -- with a fraction part
    obtain ⟨hfsne, hfslt⟩ := hfp fs rfl
    have htail : ∀ c, (('.' :: fs.map Nat.digitChar) ++ (List.replicate nsp ' ' ++ u)).head? = some c →
        c.isDigit = false := by
      intro c hc
      rw [List.cons_append, List.head?_cons, Option.some_inj] at hc
      subst hc; decide
    have htake : takeDigits ((d0 :: ds0).map Nat.digitChar ++
        (('.' :: fs.map Nat.digitChar) ++ (List.replicate nsp ' ' ++ u))) =
        (d0 :: ds0, ('.' :: fs.map Nat.digitChar) ++ (List.replicate nsp ' ' ++ u)) :=
      takeDigits_map_append _ _ hip htail
    have htk : takeDigits (fs.map Nat.digitChar ++ (List.replicate nsp ' ' ++ u)) =
        (fs, List.replicate nsp ' ' ++ u) :=
      takeDigits_map_append _ _ hfslt (fun c hc => (hspu c hc).1)
    have hfse : fs.isEmpty = false := by
      match fs with
      | [] => exact absurd rfl hfsne
      | _ :: _ => rfl
    have hfrac : splitFrac (('.' :: fs.map Nat.digitChar) ++ (List.replicate nsp ' ' ++ u)) =
        ((digitsToNat fs, fs.length), List.replicate nsp ' ' ++ u) := by
      simp [splitFrac, htk, hfse]
    have hsplit : splitSign (mkSizeStr sgn (d0 :: ds0) (some fs) nsp u) =
        (signNeg sgn, (d0 :: ds0).map Nat.digitChar ++
          (('.' :: fs.map Nat.digitChar) ++ (List.replicate nsp ' ' ++ u))) := by
      have := hsgn ((d0 :: ds0).map Nat.digitChar ++
          (('.' :: fs.map Nat.digitChar) ++ (List.replicate nsp ' ' ++ u)))
        (fun c hc => by
          rw [List.map_cons, List.cons_append, List.head?_cons, Option.some_inj] at hc
          subst hc
          exact ⟨hd0.2.2.1, hd0.2.2.2.1⟩)
      rw [mkSizeStr]
      simpa [List.append_assoc] using this
    simp only [strictMatch, hsplit, htake, hfrac, hdrop, List.isEmpty_cons]
    rcases strictUnitOf u with _ | m <;> rfl

/-- `parseInt` on a rendered signed numeral followed by non-digit text
reads back exactly the digits. -/
theorem parseIntRadix10_mk (sgn : Option Bool) (ds : List ℕ) (rest : List Char)
    (hds : ∀ d ∈ ds, d < 10) (hdsne : ds ≠ [])
    (hrest : ∀ c, rest.head? = some c → c.isDigit = false) :
    parseIntRadix10 (signChars sgn ++ ds.map Nat.digitChar ++ rest) =
      some (signNeg sgn, digitsToNat ds) := by
  obtain ⟨d0, ds0, rfl⟩ : ∃ d0 ds0, ds = d0 :: ds0 := by
    match ds with
    | d :: ds' => exact ⟨d, ds', rfl⟩
    | [] => exact absurd rfl hdsne
  have hd0 := digitChar_facts d0 (hds d0 (List.mem_cons_self d0 ds0))
  rw [List.append_assoc]
  have hnosp : (signChars sgn ++ ((d0 :: ds0).map Nat.digitChar ++ rest)).dropWhile isJsSpace =
      signChars sgn ++ ((d0 :: ds0).map Nat.digitChar ++ rest) := by
    match sgn with
    | some true => simp [signChars, List.dropWhile, show isJsSpace '-' = false by decide]
    | some false => simp [signChars, List.dropWhile, show isJsSpace '+' = false by decide]
    | none =>
      rw [signChars, List.nil_append, List.map_cons, List.cons_append]
      simp [List.dropWhile, hd0.2.2.2.2.2.2.1]
  have hsp : splitSign (signChars sgn ++ ((d0 :: ds0).map Nat.digitChar ++ rest)) =
      (signNeg sgn, (d0 :: ds0).map Nat.digitChar ++ rest) :=
    splitSign_signChars sgn _ (fun c hc => by
      rw [List.map_cons, List.cons_append, List.head?_cons, Option.some_inj] at hc
      subst hc
      exact ⟨hd0.2.2.1, hd0.2.2.2.1⟩)
  have htk : takeDigits ((d0 :: ds0).map Nat.digitChar ++ rest) = (d0 :: ds0, rest) :=
    takeDigits_map_append _ _ hds hrest
  simp only [parseIntRadix10, hnosp, hsp, htk, List.isEmpty_cons]
  rfl

/-! ## Format-side lemmas -/

theorem byteUnitMap_selectUnitName (mag : ℚ) :
    byteUnitMap ((selectUnitName mag).data.map Char.toLower) = some (autoMultiplier mag) := by
  rw [selectUnitName, autoMultiplier]
  split_ifs <;> decide

theorem autoMultiplier_pos (mag : ℚ) : 0 < autoMultiplier mag := by
  rw [autoMultiplier]; split_ifs <;> norm_num

theorem autoMultiplier_le_mag (mag : ℚ) (h : autoMultiplier mag ≠ 1) :
    (autoMultiplier mag : ℚ) ≤ mag := by
  rw [autoMultiplier] at h ⊢
  split_ifs at h ⊢ with h1 h2 h3 h4 h5 <;>
    first
    | exact absurd rfl h
    | (push_cast; linarith)

theorem autoMultiplier_eq_one (mag : ℚ) (h : autoMultiplier mag = 1) : mag < 1024 := by
  rw [autoMultiplier] at h
  by_contra hc
  push_neg at hc
  split_ifs at h <;> simp_all

theorem resolveUnit_unknown (u : String) (mag : ℚ)
    (h : u = "" ∨ mapTruthy (u.data.map Char.toLower) = false) :
    resolveUnit u mag = selectUnitName mag := by
  rw [resolveUnit, if_pos h]

/-- `format` on a finite value, once the unit is resolved and the decimal
count is in `toFixed`'s accepted range, is the string pipeline. -/
theorem format_fin_pipeline (q : ℚ) (opts : FormatOptions) (uname : String) (m : ℕ) (d : ℤ)
    (hu : resolveUnit opts.unit |q| = uname)
    (hm : byteUnitMap (uname.data.map Char.toLower) = some m)
    (hd : opts.decimalPlaces.getD 2 = d)
    (hd0 : 0 ≤ d) (hd100 : d ≤ 100) :
    format (.fin q) opts =
      .toStr ⟨(if opts.thousandsSeparator.data.isEmpty then
                 (if opts.fixedDecimals then toFixedStr d.toNat (q / (m : ℚ))
                  else jsStripDecimals (toFixedStr d.toNat (q / (m : ℚ))))
               else jsThousands opts.thousandsSeparator.data
                 (if opts.fixedDecimals then toFixedStr d.toNat (q / (m : ℚ))
                  else jsStripDecimals (toFixedStr d.toNat (q / (m : ℚ))))) ++
              opts.unitSeparator.data ++ uname.data⟩ := by
  have hjf : jsToFixed d (q / (m : ℚ)) = some (toFixedStr d.toNat (q / (m : ℚ))) := by
    rw [jsToFixed, if_neg]
    push_neg
    exact ⟨hd0, hd100⟩
  simp only [format, hu, hm, hd, Option.getD_some, hjf]

/-- `format` with only `decimalPlaces` set (all other options default):
auto-selected unit, stripped decimals, no separators. -/
theorem format_fin_basic (q : ℚ) (dp : Option ℤ) (d : ℤ)
    (hd : dp.getD 2 = d) (hd0 : 0 ≤ d) (hd100 : d ≤ 100) :
    format (.fin q) { decimalPlaces := dp } =
      .toStr ⟨jsStripDecimals (toFixedStr d.toNat (q / (autoMultiplier |q| : ℚ))) ++
              (selectUnitName |q|).data⟩ := by
  rw [format_fin_pipeline q { decimalPlaces := dp } (selectUnitName |q|) (autoMultiplier |q|) d
    (resolveUnit_unknown "" |q| (Or.inl rfl)) (byteUnitMap_selectUnitName |q|) hd hd0 hd100]
  simp

/-- `toFixedStr` below the big-magnitude branch, determined by the rounded
scaled natural `N`. -/
theorem toFixedStr_eval (d : ℕ) (q : ℚ) (N : ℕ) (hlt : |q| < 10 ^ 21)
    (hN : (N : ℚ) ≤ |q| * 10 ^ d + 1 / 2) (hN' : |q| * 10 ^ d + 1 / 2 < N + 1) :
    toFixedStr d q = (if q < 0 then ['-'] else []) ++ fixedDigits d N := by
  rw [toFixedStr]
  simp only [if_neg (not_le.mpr hlt)]
  congr 1
  have : ⌊|q| * 10 ^ d + 1 / 2⌋ = (N : ℤ) := by
    rw [Int.floor_eq_iff]
    constructor
    · exact_mod_cast hN
    · push_cast
      exact hN'
  rw [this, Int.toNat_natCast]

/-- The fraction digits of a fixed rendering: the remainder `r`,
zero-padded on the left to `d` digits. -/
def fracRepr (d r : ℕ) : List Char :=
  List.replicate (d - (natRepr r).length) '0' ++ natRepr r

theorem natDigitsLE_cons (n : ℕ) (hn : n ≠ 0) :
    natDigitsLE n = n % 10 :: natDigitsLE (n / 10) := by
  rw [natDigitsLE_eq, natDigitsLE_eq, Nat.digits_def' (by norm_num : (1 : ℕ) < 10)
    (Nat.pos_of_ne_zero hn)]

theorem natDigitsLE_split (d : ℕ) : ∀ r q : ℕ, r < 10 ^ d → q ≠ 0 →
    natDigitsLE (r + q * 10 ^ d) =
      (natDigitsLE r ++ List.replicate (d - (natDigitsLE r).length) 0) ++ natDigitsLE q := by
  induction d with
  | zero =>
    intro r q hr _
    interval_cases r
    simp [natDigitsLE, natDigitsAux]
  | succ d ih =>
    intro r q hr hq
    have hq10 : 0 < q * 10 ^ (d + 1) :=
      Nat.mul_pos (Nat.pos_of_ne_zero hq) (pow_pos (by norm_num) _)
    have hne : r + q * 10 ^ (d + 1) ≠ 0 := by omega
    have hmod : (r + q * 10 ^ (d + 1)) % 10 = r % 10 := by
      have : q * 10 ^ (d + 1) = q * 10 ^ d * 10 := by ring
      rw [this, Nat.add_mul_mod_self_right]
    have hdiv : (r + q * 10 ^ (d + 1)) / 10 = r / 10 + q * 10 ^ d := by
      have : q * 10 ^ (d + 1) = q * 10 ^ d * 10 := by ring
      rw [this, Nat.add_mul_div_right _ _ (by norm_num : (0 : ℕ) < 10)]
    have hrd : r / 10 < 10 ^ d := by
      have h10 : (10 : ℕ) ^ (d + 1) = 10 * 10 ^ d := by ring
      exact Nat.div_lt_of_lt_mul (by omega)
    rw [natDigitsLE_cons _ hne, hmod, hdiv, ih (r / 10) q hrd hq]
    by_cases hr0 : r = 0
    · subst hr0
      simp only [Nat.zero_div, Nat.zero_mod, natDigitsLE, natDigitsAux, List.nil_append,
        List.length_nil, Nat.sub_zero]
      rw [List.replicate_succ]
      simp
    · rw [natDigitsLE_cons r hr0]
      simp only [List.length_cons, List.cons_append]
      rw [show d + 1 - ((natDigitsLE (r / 10)).length + 1) = d - (natDigitsLE (r / 10)).length
        by omega]

theorem natDigitsLE_length_le (N d : ℕ) (h : N < 10 ^ d) : (natDigitsLE N).length ≤ d := by
  rw [natDigitsLE_eq]
  by_cases h0 : N = 0
  · subst h0; simp
  · rw [Nat.digits_len 10 N (by norm_num) h0]
    have := Nat.log_lt_of_lt_pow h0 h
    omega

theorem natRepr_length (n : ℕ) (hn : n ≠ 0) :
    (natRepr n).length = (natDigitsLE n).length := by
  simp [natRepr, natReprDigits, if_neg hn]

theorem natRepr_zero : natRepr 0 = ['0'] := rfl

/-- Take/drop of the padded digit string when the bare digits fit within
`d` places: a single leading `0` integer part and a `d`-wide padded
fraction. -/
theorem padded_take_drop (raw : List Char) (d : ℕ) (hlen : raw.length ≤ d) :
    (List.replicate (d + 1 - raw.length) '0' ++ raw).take
        ((List.replicate (d + 1 - raw.length) '0' ++ raw).length - d) = ['0'] ∧
    (List.replicate (d + 1 - raw.length) '0' ++ raw).drop
        ((List.replicate (d + 1 - raw.length) '0' ++ raw).length - d) =
      List.replicate (d - raw.length) '0' ++ raw := by
  have hl : (List.replicate (d + 1 - raw.length) '0' ++ raw).length = d + 1 := by
    simp
    omega
  rw [hl]
  constructor
  · rw [List.take_append_of_le_length (by simp [List.length_replicate]; omega)]
    rw [List.take_replicate]
    rw [show min (d + 1 - d) (d + 1 - raw.length) = 1 by omega]
    rfl
  · rw [List.drop_append_of_le_length (by simp [List.length_replicate]; omega)]
    rw [List.drop_replicate]
    rw [show d + 1 - raw.length - (d + 1 - d) = d - raw.length by omega]

/-- Take/drop of the padded digit string when the bare digits split as an
integer block and a `d`-wide block: no padding happens and the split is
returned. -/
theorem padded_take_drop_ge (A B : List Char) (d : ℕ) (hA : 1 ≤ A.length)
    (hB : B.length = d) :
    List.replicate (d + 1 - (A ++ B).length) '0' ++ (A ++ B) = A ++ B ∧
    (A ++ B).take ((A ++ B).length - d) = A ∧
    (A ++ B).drop ((A ++ B).length - d) = B := by
  have hl : (A ++ B).length = A.length + d := by simp [hB]
  refine ⟨?_, ?_, ?_⟩
  · rw [hl, show d + 1 - (A.length + d) = 0 by omega]
    rfl
  · rw [hl, show A.length + d - d = A.length by omega, List.take_left]
  · rw [hl, show A.length + d - d = A.length by omega, List.drop_left]

/-- The fixed layout of the scaled rounded value `N` with `d > 0`
decimals: the decimal rendering of `N / 10^d`, a point, then `N % 10^d`
padded to `d` digits. -/
theorem fixedDigits_eq (d N : ℕ) (hd : 0 < d) :
    fixedDigits d N = natRepr (N / 10 ^ d) ++ '.' :: fracRepr d (N % 10 ^ d) := by
  have hp : (0 : ℕ) < 10 ^ d := pow_pos (by norm_num) d
  rw [fixedDigits, if_neg (by omega : ¬d = 0)]
  rcases Nat.lt_or_ge N (10 ^ d) with hN | hN
  · -- integer part 0
    have hdiv : N / 10 ^ d = 0 := Nat.div_eq_of_lt hN
    have hmod : N % 10 ^ d = N := Nat.mod_eq_of_lt hN
    have hlenraw : (fixedRaw N).length ≤ d := by
      rw [fixedRaw]
      by_cases h0 : N = 0
      · simp [h0]
      · rw [if_neg h0]
        simp only [List.length_map, List.length_reverse]
        exact natDigitsLE_length_le N d hN
    obtain ⟨ht, hdr⟩ := padded_take_drop (fixedRaw N) d hlenraw
    have hpad : fixedPadded d N = List.replicate (d + 1 - (fixedRaw N).length) '0' ++ fixedRaw N := rfl
    rw [hpad, ht, hdr, hdiv, hmod, natRepr_zero, fracRepr]
    by_cases h0 : N = 0
    · subst h0
      have hraw0 : fixedRaw 0 = [] := rfl
      rw [hraw0, natRepr_zero]
      simp only [List.append_nil, List.length_nil, Nat.sub_zero, List.length_singleton]
      congr 1
      congr 1
      conv_lhs => rw [show d = (d - 1) + 1 by omega, List.replicate_succ']
    · have hraweq : fixedRaw N = natRepr N := by
        rw [fixedRaw, if_neg h0, natRepr, natReprDigits, if_neg h0]
      rw [hraweq]
  · -- integer part nonzero
    have hq0 : N / 10 ^ d ≠ 0 := by
      have := (Nat.one_le_div_iff hp).mpr hN
      omega
    have hN0 : N ≠ 0 := by
      intro h
      subst h
      omega
    have hsum : N % 10 ^ d + (N / 10 ^ d) * 10 ^ d = N := Nat.mod_add_div' N (10 ^ d)
    have hrlt : N % 10 ^ d < 10 ^ d := Nat.mod_lt N hp
    have hlr : (natDigitsLE (N % 10 ^ d)).length ≤ d :=
      natDigitsLE_length_le _ d hrlt
    have hsplit : natDigitsLE N =
        (natDigitsLE (N % 10 ^ d) ++
          List.replicate (d - (natDigitsLE (N % 10 ^ d)).length) 0) ++
          natDigitsLE (N / 10 ^ d) := by
      conv_lhs => rw [← hsum]
      exact natDigitsLE_split d _ _ hrlt hq0
    have hraweq : fixedRaw N =
        ((natDigitsLE (N / 10 ^ d)).reverse.map Nat.digitChar) ++
          (List.replicate (d - (natDigitsLE (N % 10 ^ d)).length) '0' ++
            (natDigitsLE (N % 10 ^ d)).reverse.map Nat.digitChar) := by
      rw [fixedRaw, if_neg hN0, hsplit]
      simp only [List.reverse_append, List.reverse_replicate, List.map_append,
        List.map_replicate, List.append_assoc, show Nat.digitChar 0 = '0' from rfl]
    have hlq1 : 1 ≤ ((natDigitsLE (N / 10 ^ d)).reverse.map Nat.digitChar).length := by
      simp only [List.length_map, List.length_reverse]
      rcases h : natDigitsLE (N / 10 ^ d) with _ | ⟨a, t⟩
      · exact absurd ((natDigitsLE_eq_nil_iff _).mp h) hq0
      · simp
    have hBlen : (List.replicate (d - (natDigitsLE (N % 10 ^ d)).length) '0' ++
        (natDigitsLE (N % 10 ^ d)).reverse.map Nat.digitChar).length = d := by
      simp only [List.length_append, List.length_replicate, List.length_map,
        List.length_reverse]
      omega
    obtain ⟨hid, ht, hdr⟩ := padded_take_drop_ge _ _ d hlq1 hBlen
    have hpad : fixedPadded d N = List.replicate (d + 1 - (fixedRaw N).length) '0' ++ fixedRaw N := rfl
    rw [hpad, hraweq, hid, ht, hdr]
    congr 1
    · rw [natRepr, natReprDigits, if_neg hq0]
    · congr 1
      rw [fracRepr]
      by_cases hr0 : N % 10 ^ d = 0
      · rw [hr0, natRepr_zero]
        have : natDigitsLE 0 = [] := rfl
        rw [this]
        simp only [List.reverse_nil, List.map_nil, List.append_nil, List.length_nil,
          Nat.sub_zero, List.length_singleton]
        conv_lhs => rw [show d = (d - 1) + 1 by omega, List.replicate_succ']
      · have : (natDigitsLE (N % 10 ^ d)).reverse.map Nat.digitChar = natRepr (N % 10 ^ d) := by
          rw [natRepr, natReprDigits, if_neg hr0]
        rw [this, natRepr_length _ hr0]

/-! ## Stripping lemmas (`formatDecimalsRegExp`) -/

theorem jsStripDecimals_append (pre rest : List Char) (h : '.' ∉ pre) :
    jsStripDecimals (pre ++ rest) = pre ++ jsStripDecimals rest := by
  induction pre with
  | nil => rfl
  | cons c cs ih =>
    have hc : ¬c = '.' := fun hc => h (hc ▸ List.mem_cons_self c cs)
    have hcs : '.' ∉ cs := fun hm => h (List.mem_cons_of_mem c hm)
    simp only [List.cons_append, jsStripDecimals, if_neg hc, List.append_eq, ih hcs]

theorem jsStripDecimals_no_dot (cs : List Char) (h : '.' ∉ cs) :
    jsStripDecimals cs = cs := by
  have := jsStripDecimals_append cs [] h
  simpa [jsStripDecimals] using this

theorem jsStripDecimals_dot (pre t : List Char) (h : '.' ∉ pre) :
    jsStripDecimals (pre ++ '.' :: t) =
      pre ++ (match stripMatchAt t with
              | some rep => rep
              | none => '.' :: jsStripDecimals t) := by
  rw [jsStripDecimals_append pre _ h]
  congr 1

theorem all_zero_bool (zs : List Char) (h : ∀ c ∈ zs, c = '0') :
    zs.all (· = '0') = true := by
  rw [List.all_eq_true]
  intro x hx
  exact decide_eq_true_eq.mpr (h x hx)

theorem stripMatchAt_allzero (zs : List Char) (h : ∀ c ∈ zs, c = '0') :
    stripMatchAt zs = some [] := by
  rw [stripMatchAt, if_pos (all_zero_bool zs h)]

theorem takeWhile_all_append (p : Char → Bool) (a zs : List Char)
    (ha : ∀ c ∈ a, p c = true) (hz : ∀ c, zs.head? = some c → p c = false) :
    (a ++ zs).takeWhile p = a := by
  induction a with
  | nil =>
    match zs with
    | [] => rfl
    | c :: cs =>
      have := hz c rfl
      simp [List.takeWhile, this]
  | cons c cs ih =>
    have hc := ha c (List.mem_cons_self c cs)
    simp only [List.cons_append, List.takeWhile, hc, List.append_eq,
      ih (fun e he => ha e (List.mem_cons_of_mem c he))]

theorem stripMatchAt_trail (a zs : List Char) (hane : a ≠ [])
    (ha : ∀ c ∈ a, c ≠ '0') (hzne : zs ≠ []) (hz : ∀ c ∈ zs, c = '0') :
    stripMatchAt (a ++ zs) = some ('.' :: a) := by
  obtain ⟨a0, as, rfl⟩ : ∃ a0 as, a = a0 :: as := by
    match a with
    | x :: xs => exact ⟨x, xs, rfl⟩
    | [] => exact absurd rfl hane
  obtain ⟨z0, zs', rfl⟩ : ∃ z0 zs', zs = z0 :: zs' := by
    match zs with
    | x :: xs => exact ⟨x, xs, rfl⟩
    | [] => exact absurd rfl hzne
  have hall : ((a0 :: as) ++ z0 :: zs').all (· = '0') = false := by
    rw [List.all_eq_false]
    refine ⟨a0, by simp, ?_⟩
    simpa using ha a0 (List.mem_cons_self a0 as)
  have htw : ((a0 :: as) ++ z0 :: zs').takeWhile (· ≠ '0') = a0 :: as := by
    apply takeWhile_all_append
    · intro c hc
      simpa using ha c hc
    · intro c hc
      rw [List.head?_cons, Option.some_inj] at hc
      rw [← hc]
      simp [hz z0 (List.mem_cons_self z0 zs')]
  have hdrop : ((a0 :: as) ++ z0 :: zs').drop (a0 :: as).length = z0 :: zs' :=
    List.drop_left _ _
  have hzb : (z0 :: zs').all (· = '0') = true := all_zero_bool _ hz
  simp only [stripMatchAt, htw, hdrop]
  rw [if_neg (by rw [hall]; exact Bool.false_ne_true), if_pos]
  exact ⟨by simp, by simp, hzb⟩

theorem jsStripDecimals_allzero (pre zs : List Char) (h : '.' ∉ pre)
    (hz : ∀ c ∈ zs, c = '0') :
    jsStripDecimals (pre ++ '.' :: zs) = pre := by
  rw [jsStripDecimals_dot pre zs h, stripMatchAt_allzero zs hz]
  simp

theorem jsStripDecimals_trail (pre a zs : List Char) (h : '.' ∉ pre) (hane : a ≠ [])
    (ha : ∀ c ∈ a, c ≠ '0') (hzne : zs ≠ []) (hz : ∀ c ∈ zs, c = '0') :
    jsStripDecimals (pre ++ '.' :: (a ++ zs)) = pre ++ '.' :: a := by
  rw [jsStripDecimals_dot pre _ h, stripMatchAt_trail a zs hane ha hzne hz]

theorem jsStripDecimals_dot_nomatch (pre t : List Char) (h : '.' ∉ pre)
    (hm : stripMatchAt t = none) (ht : '.' ∉ t) :
    jsStripDecimals (pre ++ '.' :: t) = pre ++ '.' :: t := by
  rw [jsStripDecimals_dot pre t h, hm, jsStripDecimals_no_dot t ht]

theorem stripMatchAt_two (c1 c0 : Char) (h0 : c0 ≠ '0') : stripMatchAt [c1, c0] = none := by
  by_cases h1 : c1 = '0'
  · subst h1
    simp [stripMatchAt, h0, List.takeWhile]
  · simp [stripMatchAt, h0, h1, List.takeWhile]

theorem natRepr_mem (n : ℕ) (c : Char) (hc : c ∈ natRepr n) :
    ∃ d, d < 10 ∧ c = Nat.digitChar d := by
  rw [natRepr] at hc
  obtain ⟨d, hd, rfl⟩ := List.mem_map.mp hc
  exact ⟨d, natReprDigits_lt n d hd, rfl⟩

theorem natRepr_no_dot (n : ℕ) : '.' ∉ natRepr n := by
  intro hmem
  obtain ⟨d, hd, he⟩ := natRepr_mem n '.' hmem
  exact (digitChar_facts d hd).2.2.2.2.1 he.symm

theorem sgn_natRepr_no_dot (b : Bool) (n : ℕ) :
    '.' ∉ (cond b ['-'] []) ++ natRepr n := by
  intro hmem
  rcases List.mem_append.mp hmem with hl | hr
  · cases b <;> simp_all
  · exact natRepr_no_dot n hr

/-- `toFixedStr` at an integer rational of magnitude below `10^21`, after
stripping: the sign and the bare digits, whatever the positive decimal
count was. -/
theorem toFixedStr_int_strip (d : ℕ) (k : ℤ) (hd : 0 < d)
    (hsmall : |(k : ℚ)| < 10 ^ 21) :
    jsStripDecimals (toFixedStr d (k : ℚ)) =
      (if (k : ℚ) < 0 then ['-'] else []) ++ natRepr k.natAbs := by
  have habs : |(k : ℚ)| = (k.natAbs : ℚ) := by
    rw [Int.cast_natAbs, Int.cast_abs]
  rw [habs] at hsmall
  rw [toFixedStr, habs]
  · rw [if_neg (not_le.mpr hsmall)]
    have hN : ⌊(k.natAbs : ℚ) * 10 ^ d + 1 / 2⌋.toNat = k.natAbs * 10 ^ d := by
      have h1 : (k.natAbs : ℚ) * 10 ^ d + 1 / 2 =
          1 / 2 + (((k.natAbs * 10 ^ d : ℕ) : ℤ) : ℚ) := by
        push_cast
        rw [habs]
        ring
      rw [h1, Int.floor_add_int, show ⌊(1 / 2 : ℚ)⌋ = 0 from by norm_num, zero_add,
        Int.toNat_natCast]
    rw [hN, fixedDigits_eq d _ hd]
    have hdiv : k.natAbs * 10 ^ d / 10 ^ d = k.natAbs :=
      Nat.mul_div_cancel _ (pow_pos (by norm_num) d)
    have hmod : k.natAbs * 10 ^ d % 10 ^ d = 0 := Nat.mul_mod_left _ _
    rw [hdiv, hmod, ← List.append_assoc]
    apply jsStripDecimals_allzero
    · intro hmem
      rcases List.mem_append.mp hmem with hl | hr
      · by_cases h : (k : ℚ) < 0 <;> simp_all
      · exact natRepr_no_dot _ hr
    · intro c hc
      rw [fracRepr] at hc
      rcases List.mem_append.mp hc with hl | hr
      · exact List.eq_of_mem_replicate hl
      · rw [natRepr_zero] at hr
        simpa using hr

theorem fixedDigits_zero_decimals (N : ℕ) : fixedDigits 0 N = natRepr N := by
  rw [fixedDigits, if_pos rfl, fixedPadded]
  by_cases h0 : N = 0
  · subst h0
    rfl
  · rw [fixedRaw, if_neg h0]
    have hlen : 1 ≤ ((natDigitsLE N).reverse.map Nat.digitChar).length := by
      simp only [List.length_map, List.length_reverse]
      rcases h : natDigitsLE N with _ | ⟨a, t⟩
      · exact absurd ((natDigitsLE_eq_nil_iff _).mp h) h0
      · simp
    rw [show 0 + 1 - ((natDigitsLE N).reverse.map Nat.digitChar).length = 0 by omega]
    rw [List.replicate, List.nil_append, natRepr, natReprDigits, if_neg h0]

/-- `toFixedStr` with zero decimals on a magnitude below `10^21` renders
an integer: a sign and bare digits, with no decimal point. -/
theorem toFixedStr_zero (q : ℚ) (hlt : |q| < 10 ^ 21) :
    toFixedStr 0 q = (if q < 0 then ['-'] else []) ++
      natRepr ⌊|q| * 10 ^ 0 + 1 / 2⌋.toNat := by
  rw [toFixedStr, if_neg (not_le.mpr hlt), fixedDigits_zero_decimals]

/-! ## Thousands-grouping lemmas (`formatThousandsRegExp`) -/

theorem isWordChar_of_isDigit (c : Char) (h : c.isDigit = true) : isWordChar c = true := by
  simp [isWordChar, h]

theorem takeWhile_append_all (p : Char → Bool) (A T : List Char)
    (hA : ∀ c ∈ A, p c = true) :
    (A ++ T).takeWhile p = A ++ T.takeWhile p := by
  induction A with
  | nil => rfl
  | cons c cs ih =>
    have hc := hA c (List.mem_cons_self c cs)
    simp only [List.cons_append, List.takeWhile, hc, List.append_eq,
      ih (fun e he => hA e (List.mem_cons_of_mem c he))]

theorem map_digitChar_isDigit (L : List ℕ) (hL : ∀ d ∈ L, d < 10) :
    ∀ c ∈ L.map Nat.digitChar, c.isDigit = true := by
  intro c hc
  obtain ⟨d, hd, rfl⟩ := List.mem_map.mp hc
  exact (digitChar_facts d (hL d hd)).1

/-- No separator is inserted inside a digit run of length at most 2
(whatever the previous character). -/
theorem jsThousandsAux_short (sep : List Char) (L : List ℕ) (hL : ∀ d ∈ L, d < 10)
    (hshort : L.length ≤ 2) :
    ∀ prev : Char, jsThousandsAux sep (some prev) (L.map Nat.digitChar) =
      L.map Nat.digitChar := by
  induction L with
  | nil => intro prev; rfl
  | cons d L' ih =>
    intro prev
    have hrun : ((Nat.digitChar d :: L'.map Nat.digitChar).takeWhile Char.isDigit).length =
        L'.length + 1 := by
      have : Nat.digitChar d :: L'.map Nat.digitChar = (d :: L').map Nat.digitChar := rfl
      rw [this]
      have hall : ∀ c ∈ (d :: L').map Nat.digitChar, Char.isDigit c = true :=
        map_digitChar_isDigit _ hL
      have := takeWhile_append_all Char.isDigit ((d :: L').map Nat.digitChar) [] hall
      simp only [List.append_nil] at this
      rw [this]
      simp
    have hpos : thousandsPos (some prev) (Nat.digitChar d :: L'.map Nat.digitChar) = false := by
      rw [thousandsPos]
      simp only [hrun]
      have h3 : ¬(L'.length + 1) % 3 = 0 := by
        simp only [List.length_cons] at hshort
        omega
      simp [h3]
    rw [List.map_cons, jsThousandsAux]
    rw [show Nat.digitChar d :: L'.map Nat.digitChar = (d :: L').map Nat.digitChar from rfl] at hpos
    simp only [List.map_cons] at hpos
    rw [hpos]
    simp only [Bool.false_eq_true, if_false, List.nil_append]
    have hL' : ∀ e ∈ L', e < 10 := fun e he => hL e (List.mem_cons_of_mem d he)
    have hs' : L'.length ≤ 2 := by
      simp only [List.length_cons] at hshort
      omega
    rw [ih hL' hs' (Nat.digitChar d)]

/-- Through a digit run followed by non-digit text `T` (which is a
fixpoint of the pass), the separator is inserted exactly where the
remaining digit-run length is a positive multiple of three — i.e. the
grouping of `groupRight`. -/
theorem jsThousandsAux_digits (sep : List Char) (T : List Char)
    (hT : T.takeWhile Char.isDigit = [])
    (hTfix : ∀ c, c.isDigit = true → jsThousandsAux sep (some c) T = T) :
    ∀ I : List ℕ, (∀ d ∈ I, d < 10) →
    ∀ prev : Char, prev.isDigit = true →
      jsThousandsAux sep (some prev) (I.map Nat.digitChar ++ T) =
        (if I.length % 3 = 0 ∧ I ≠ [] then sep else []) ++
          groupRight sep (I.map Nat.digitChar) ++ T := by
  intro I
  induction I with
  | nil =>
    intro _ prev hprev
    simp only [List.map_nil, List.nil_append]
    rw [hTfix prev hprev]
    simp [groupRight]
  | cons d I' ih =>
    intro hI prev hprev
    have hdf := digitChar_facts d (hI d (List.mem_cons_self d I'))
    have hI' : ∀ e ∈ I', e < 10 := fun e he => hI e (List.mem_cons_of_mem d he)
    have hrun : ((Nat.digitChar d :: (I'.map Nat.digitChar ++ T)).takeWhile Char.isDigit) =
        Nat.digitChar d :: I'.map Nat.digitChar := by
      have : Nat.digitChar d :: (I'.map Nat.digitChar ++ T) =
          ((d :: I').map Nat.digitChar) ++ T := by simp
      rw [this, takeWhile_append_all Char.isDigit _ T (map_digitChar_isDigit _ hI), hT,
        List.append_nil]
      rfl
    have hpos : thousandsPos (some prev) (Nat.digitChar d :: (I'.map Nat.digitChar ++ T)) =
        decide ((I'.length + 1) % 3 = 0) := by
      rw [thousandsPos]
      simp only [hrun, List.length_cons, List.length_map]
      have hnb : isWordChar prev = isWordChar (Nat.digitChar d) := by
        rw [isWordChar_of_isDigit prev hprev, hdf.2.2.2.2.2.2.2.1]
      simp [hnb]
    rw [List.map_cons, List.cons_append, jsThousandsAux]
    rw [show Nat.digitChar d :: (I'.map Nat.digitChar ++ T) =
      (d :: I').map Nat.digitChar ++ T by simp] at hpos
    simp only [List.map_cons, List.cons_append] at hpos
    rw [hpos, ih hI' (Nat.digitChar d) hdf.1]
    simp only [groupRight, List.length_map, List.length_cons, List.cons_append,
      List.append_assoc, decide_eq_true_eq, List.map_eq_nil_iff]
    by_cases h3 : (I'.length + 1) % 3 = 0 <;>
      by_cases h0 : I' = [] <;>
        simp [h3, h0, groupRight, List.append_assoc]

/-- A digit fraction of at most three digits after a point is left alone
by the thousands pass. -/
theorem jsThousandsAux_dot_frac (sep : List Char) (F : List ℕ)
    (hF : ∀ d ∈ F, d < 10) (hlen : F.length ≤ 3) (c : Char) :
    jsThousandsAux sep (some c) ('.' :: F.map Nat.digitChar) =
      '.' :: F.map Nat.digitChar := by
  rw [jsThousandsAux]
  have hpos : thousandsPos (some c) ('.' :: F.map Nat.digitChar) = false := by
    rw [thousandsPos]
    simp [List.takeWhile, show ('.').isDigit = false from rfl]
  rw [hpos]
  simp only [Bool.false_eq_true, if_false, List.nil_append]
  congr 1
  match F, hlen with
  | [], _ => rfl
  | f :: F', hlen =>
    have hdf := digitChar_facts f (hF f (List.mem_cons_self f F'))
    rw [List.map_cons, jsThousandsAux]
    have hpos2 : thousandsPos (some '.') (Nat.digitChar f :: F'.map Nat.digitChar) = false := by
      rw [thousandsPos]
      simp [show isWordChar '.' = false from rfl, hdf.2.2.2.2.2.2.2.1]
    rw [hpos2]
    simp only [Bool.false_eq_true, if_false, List.nil_append]
    have hF' : ∀ e ∈ F', e < 10 := fun e he => hF e (List.mem_cons_of_mem f he)
    have hs' : F'.length ≤ 2 := by
      simp only [List.length_cons] at hlen
      omega
    rw [jsThousandsAux_short sep F' hF' hs' (Nat.digitChar f)]

/-- Starting at a position whose previous character is absent or not a
word character, a digit run is grouped by threes from the right and the
trailing text is untouched. -/
theorem jsThousandsAux_start (sep : List Char) (T : List Char)
    (hT : T.takeWhile Char.isDigit = [])
    (hTfix : ∀ c, c.isDigit = true → jsThousandsAux sep (some c) T = T)
    (I : List ℕ) (hI : ∀ d ∈ I, d < 10) (hIne : I ≠ [])
    (p : Option Char) (hp : ∀ c, p = some c → isWordChar c = false) :
    jsThousandsAux sep p (I.map Nat.digitChar ++ T) =
      groupRight sep (I.map Nat.digitChar) ++ T := by
  obtain ⟨d0, I', rfl⟩ : ∃ d0 I', I = d0 :: I' := by
    match I with
    | x :: xs => exact ⟨x, xs, rfl⟩
    | [] => exact absurd rfl hIne
  have hdf := digitChar_facts d0 (hI d0 (List.mem_cons_self d0 I'))
  have hI' : ∀ e ∈ I', e < 10 := fun e he => hI e (List.mem_cons_of_mem d0 he)
  rw [List.map_cons, List.cons_append, jsThousandsAux]
  have hpos : thousandsPos p (Nat.digitChar d0 :: (I'.map Nat.digitChar ++ T)) = false := by
    match p with
    | none =>
      rw [thousandsPos]
      simp [hdf.2.2.2.2.2.2.2.1]
    | some c =>
      rw [thousandsPos]
      simp [hp c rfl, hdf.2.2.2.2.2.2.2.1]
  rw [hpos]
  simp only [Bool.false_eq_true, if_false, List.nil_append]
  rw [jsThousandsAux_digits sep T hT hTfix I' hI' (Nat.digitChar d0) hdf.1]
  simp only [groupRight, List.length_map, List.cons_append, List.append_assoc,
    ne_eq, List.map_eq_nil_iff]

/-- The full thousands pass on a rendered signed number: the sign is
untouched, the integer digit run is grouped by threes from the right, and
the trailing text (empty, or a point and at most three fraction digits)
is untouched. -/
theorem jsThousands_shape (sep : List Char) (sgn : Option Bool) (I : List ℕ) (T : List Char)
    (hI : ∀ d ∈ I, d < 10) (hIne : I ≠ [])
    (hT : T.takeWhile Char.isDigit = [])
    (hTfix : ∀ c, c.isDigit = true → jsThousandsAux sep (some c) T = T) :
    jsThousands sep (signChars sgn ++ (I.map Nat.digitChar ++ T)) =
      signChars sgn ++ (groupRight sep (I.map Nat.digitChar) ++ T) := by
  rw [jsThousands]
  match sgn with
  | none =>
    rw [signChars, List.nil_append, List.nil_append]
    exact jsThousandsAux_start sep T hT hTfix I hI hIne none (by intro c hc; cases hc)
  | some b =>
    have hsc : ∃ s : Char, signChars (some b) = [s] ∧ isWordChar s = false ∧
        s.isDigit = false := by
      cases b
      · exact ⟨'+', rfl, by decide, by decide⟩
      · exact ⟨'-', rfl, by decide, by decide⟩
    obtain ⟨sc, hsc1, hsc2, hsc3⟩ := hsc
    rw [hsc1, List.singleton_append, jsThousandsAux]
    have hpos : thousandsPos none (sc :: (I.map Nat.digitChar ++ T)) = false := by
      simp only [thousandsPos]
      simp [List.takeWhile, hsc3]
    rw [hpos]
    simp only [Bool.false_eq_true, if_false, List.nil_append]
    rw [jsThousandsAux_start sep T hT hTfix I hI hIne (some sc)
      (by intro c hc; rw [Option.some_inj] at hc; rw [← hc]; exact hsc2)]
    rfl

/-- Concrete evaluation of `format` at a non-negative finite value: once
the resolved unit, multiplier and rounded scaled natural `N` are supplied
(with `norm_num`-checkable bounds), the result is the string pipeline on
the concrete digit layout. -/
theorem format_eval_pos (q : ℚ) (opts : FormatOptions) (d : ℤ) (m N : ℕ) (uname : String)
    (hq : 0 ≤ q)
    (hd : opts.decimalPlaces.getD 2 = d) (hd0 : 0 ≤ d) (hd100 : d ≤ 100)
    (hu : resolveUnit opts.unit q = uname)
    (hmap : byteUnitMap (uname.data.map Char.toLower) = some m) (hmpos : 0 < m)
    (hlt : q / (m : ℚ) < 10 ^ 21)
    (hN : (N : ℚ) ≤ q / (m : ℚ) * 10 ^ d.toNat + 1 / 2)
    (hN' : q / (m : ℚ) * 10 ^ d.toNat + 1 / 2 < N + 1) :
    format (.fin q) opts =
      .toStr ⟨(if opts.thousandsSeparator.data.isEmpty then
                 (if opts.fixedDecimals then fixedDigits d.toNat N
                  else jsStripDecimals (fixedDigits d.toNat N))
               else jsThousands opts.thousandsSeparator.data
                 (if opts.fixedDecimals then fixedDigits d.toNat N
                  else jsStripDecimals (fixedDigits d.toNat N))) ++
              opts.unitSeparator.data ++ uname.data⟩ := by
  have habs : |q| = q := abs_of_nonneg hq
  have hvpos : 0 ≤ q / (m : ℚ) := by positivity
  have hvabs : |q / (m : ℚ)| = q / (m : ℚ) := abs_of_nonneg hvpos
  have hfix : toFixedStr d.toNat (q / (m : ℚ)) = fixedDigits d.toNat N := by
    have := toFixedStr_eval d.toNat (q / (m : ℚ)) N (by rw [hvabs]; exact hlt)
      (by rw [hvabs]; exact hN) (by rw [hvabs]; exact hN')
    rw [this, if_neg (not_lt.mpr hvpos), List.nil_append]
  rw [format_fin_pipeline q opts uname m d (by rw [habs]; exact hu) hmap hd hd0 hd100, hfix]

/-- The unit selection cascade: which name and multiplier are chosen,
with the interval information. -/
theorem selectUnit_cases (mag : ℚ) :
    (selectUnitName mag = "B" ∧ autoMultiplier mag = 1 ∧ mag < 1024) ∨
    (selectUnitName mag = "KB" ∧ autoMultiplier mag = 1024 ∧ 1024 ≤ mag) ∨
    (selectUnitName mag = "MB" ∧ autoMultiplier mag = 1048576 ∧ 1048576 ≤ mag) ∨
    (selectUnitName mag = "GB" ∧ autoMultiplier mag = 1073741824 ∧ 1073741824 ≤ mag) ∨
    (selectUnitName mag = "TB" ∧ autoMultiplier mag = 1099511627776 ∧ 1099511627776 ≤ mag) ∨
    (selectUnitName mag = "PB" ∧ autoMultiplier mag = 1125899906842624 ∧
      1125899906842624 ≤ mag) := by
  rw [selectUnitName, autoMultiplier]
  split_ifs with h1 h2 h3 h4 h5
  · exact Or.inr (Or.inr (Or.inr (Or.inr (Or.inr ⟨rfl, rfl, h1⟩))))
  · exact Or.inr (Or.inr (Or.inr (Or.inr (Or.inl ⟨rfl, rfl, h2⟩))))
  · exact Or.inr (Or.inr (Or.inr (Or.inl ⟨rfl, rfl, h3⟩)))
  · exact Or.inr (Or.inr (Or.inl ⟨rfl, rfl, h4⟩))
  · exact Or.inr (Or.inl ⟨rfl, rfl, h5⟩)
  · exact Or.inl ⟨rfl, rfl, by linarith [not_le.mp h5]⟩

/-- The two fraction characters of a 2-decimal layout. -/
theorem fracRepr_two (r : ℕ) (hr : r < 100) :
    fracRepr 2 r = [Nat.digitChar (r / 10), Nat.digitChar (r % 10)] := by
  rcases Nat.lt_or_ge r 10 with h10 | h10
  · by_cases h0 : r = 0
    · subst h0
      rfl
    · have hd : r / 10 = 0 := Nat.div_eq_of_lt h10
      have hm : r % 10 = r := Nat.mod_eq_of_lt h10
      have hle : natDigitsLE r = [r] := by
        rw [natDigitsLE_cons r h0, hm, hd]
        rfl
      rw [fracRepr, natRepr, natReprDigits, if_neg h0, hle, hd, hm]
      rfl
  · have h0 : r ≠ 0 := by omega
    have h00 : r / 10 ≠ 0 := by omega
    have hle : natDigitsLE r = [r % 10, r / 10] := by
      rw [natDigitsLE_cons r h0, natDigitsLE_cons (r / 10) h00]
      have h1 : r / 10 % 10 = r / 10 := Nat.mod_eq_of_lt (by omega)
      have h2 : r / 10 / 10 = 0 := Nat.div_eq_of_lt (by omega)
      rw [h1, h2]
      rfl
    rw [fracRepr, natRepr, natReprDigits, if_neg h0, hle]
    rfl

/-- `parse` on a strict-shape string whose unit token is recognised:
multiplier times signed value, floored. -/
theorem parse_mkSizeStr (sgn : Option Bool) (ip : List ℕ) (fp : Option (List ℕ)) (nsp : ℕ)
    (u : List Char) (m : ℕ)
    (hip : ∀ d ∈ ip, d < 10) (hipne : ip ≠ [])
    (hfp : ∀ fs, fp = some fs → fs ≠ [] ∧ ∀ d ∈ fs, d < 10)
    (hu : strictUnitOf u = some m) (hune : u ≠ [])
    (huh : ∀ c, u.head? = some c → c.isDigit = false ∧ c ≠ '.' ∧ c ≠ ' ' ∧ c ≠ '-' ∧ c ≠ '+') :
    parse (.str ⟨mkSizeStr sgn ip fp nsp u⟩) =
      some (.fin ((⌊(m : ℚ) * sizeNumValue sgn ip fp⌋ : ℤ) : ℚ)) := by
  have hsm := strictMatch_mkSizeStr sgn ip fp nsp u hip hipne hfp hune huh
  rw [hu] at hsm
  have hdata : (⟨mkSizeStr sgn ip fp nsp u⟩ : String).data = mkSizeStr sgn ip fp nsp u := rfl
  simp only [parse, hdata, hsm, Option.map_some']
  rcases fp with _ | fs
  · simp [sizeNumValue]
  · simp [sizeNumValue]

/-- `parse` on a sign-digits-unit string whose unit token is not
recognised by the strict pattern: the `parseInt` fallback reads the
digits. -/
theorem parse_mkSizeStr_none (sgn : Option Bool) (ip : List ℕ) (nsp : ℕ) (u : List Char)
    (hip : ∀ d ∈ ip, d < 10) (hipne : ip ≠ [])
    (hu : strictUnitOf u = none) (hune : u ≠ [])
    (huh : ∀ c, u.head? = some c → c.isDigit = false ∧ c ≠ '.' ∧ c ≠ ' ' ∧ c ≠ '-' ∧ c ≠ '+') :
    parse (.str ⟨mkSizeStr sgn ip none nsp u⟩) =
      some (.fin (signedVal (signNeg sgn) (digitsToNat ip : ℚ))) := by
  have hsm := strictMatch_mkSizeStr sgn ip none nsp u hip hipne
    (fun fs hfs => by cases hfs) hune huh
  rw [hu] at hsm
  have hdata : (⟨mkSizeStr sgn ip none nsp u⟩ : String).data = mkSizeStr sgn ip none nsp u := rfl
  have hshape : mkSizeStr sgn ip none nsp u =
      signChars sgn ++ ip.map Nat.digitChar ++ (List.replicate nsp ' ' ++ u) := by
    simp [mkSizeStr]
  have hrest : ∀ c, (List.replicate nsp ' ' ++ u).head? = some c → c.isDigit = false := by
    intro c hc
    match nsp with
    | k + 1 =>
      rw [List.replicate_succ, List.cons_append, List.head?_cons, Option.some_inj] at hc
      rw [← hc]
      decide
    | 0 =>
      rw [List.replicate, List.nil_append] at hc
      exact (huh c hc).1
  have hpi : parseIntRadix10 (mkSizeStr sgn ip none nsp u) =
      some (signNeg sgn, digitsToNat ip) := by
    rw [hshape]
    exact parseIntRadix10_mk sgn ip _ hip hipne hrest
  simp only [parse, hdata, hsm, Option.map_none', hpi]
  congr 2
  rw [one_mul]
  cases hs : signNeg sgn
  · simp only [signedVal, Bool.false_eq_true, if_false, Int.floor_natCast]
    push_cast
    ring
  · simp only [signedVal, if_true]
    rw [show -((digitsToNat ip : ℕ) : ℚ) = (((-(digitsToNat ip : ℤ)) : ℤ) : ℚ) by push_cast; ring]
    rw [Int.floor_intCast]

theorem head_cond_of_cons (c : Char) (cs : List Char)
    (h : c.isDigit = false ∧ c ≠ '.' ∧ c ≠ ' ' ∧ c ≠ '-' ∧ c ≠ '+') :
    ∀ ch, (c :: cs).head? = some ch →
      ch.isDigit = false ∧ ch ≠ '.' ∧ ch ≠ ' ' ∧ ch ≠ '-' ∧ ch ≠ '+' := by
  intro ch hch
  rw [List.head?_cons, Option.some_inj] at hch
  rw [← hch]
  exact h

/-- Round trip for a byte count whose auto-selected unit is bytes: the
formatted digits are read back by the `parseInt` fallback. -/
theorem roundtrip_core_b (n : ℤ) (hsmall : |(n : ℚ)| < 10 ^ 21) :
    parse (.str ⟨jsStripDecimals (toFixedStr 2 (n : ℚ)) ++ ['B']⟩) = some (.fin (n : ℚ)) := by
  rw [toFixedStr_int_strip 2 n (by norm_num) hsmall]
  have hsgn : (if (n : ℚ) < 0 then ['-'] else []) =
      signChars (if (n : ℚ) < 0 then some true else none) := by
    by_cases h : (n : ℚ) < 0 <;> simp [h, signChars]
  have hmk : (if (n : ℚ) < 0 then ['-'] else []) ++ natRepr n.natAbs ++ ['B'] =
      mkSizeStr (if (n : ℚ) < 0 then some true else none) (natReprDigits n.natAbs) none 0 ['B'] := by
    rw [hsgn]
    simp [mkSizeStr, natRepr]
  rw [hmk, parse_mkSizeStr_none _ _ 0 ['B'] (natReprDigits_lt _) (natReprDigits_ne_nil _)
    (by decide) (by decide) (head_cond_of_cons 'B' [] (by decide))]
  rw [digitsToNat_natReprDigits]
  have habs : (n.natAbs : ℚ) = |(n : ℚ)| := by rw [Int.cast_natAbs, Int.cast_abs]
  congr 2
  by_cases h : (n : ℚ) < 0
  · rw [if_pos h]
    simp [signNeg, signedVal, habs, abs_of_neg h]
  · rw [if_neg h]
    simp [signNeg, signedVal, habs, abs_of_nonneg (not_lt.mp h)]

/-- Round trip for a byte count whose auto-selected unit has multiplier
`m ≥ 1024` and which is exactly representable at two decimals
(`100 n = m c`): the formatted and stripped decimal string parses back to
`n` through the strict pattern. -/
theorem roundtrip_core (n c : ℤ) (m : ℕ) (U : List Char)
    (hc : 100 * n = m * c)
    (hm2 : 1024 ≤ m)
    (hmle : (m : ℚ) ≤ |(n : ℚ)|)
    (hbound : |n| ≤ 2 ^ 53)
    (hu : strictUnitOf U = some m)
    (hune : U ≠ [])
    (huh : ∀ ch, U.head? = some ch →
      ch.isDigit = false ∧ ch ≠ '.' ∧ ch ≠ ' ' ∧ ch ≠ '-' ∧ ch ≠ '+') :
    parse (.str ⟨jsStripDecimals (toFixedStr 2 ((n : ℚ) / (m : ℚ))) ++ U⟩) =
      some (.fin (n : ℚ)) := by
  have hmpos : 0 < m := by omega
  have hm0 : (0 : ℚ) < m := by exact_mod_cast hmpos
  have habsc : (c.natAbs : ℚ) = |(c : ℚ)| := by rw [Int.cast_natAbs, Int.cast_abs]
  have hval : (n : ℚ) / m = (c : ℚ) / 100 := by
    have h100 : (100 : ℚ) * n = m * c := by exact_mod_cast hc
    field_simp
    linarith [h100]
  have habsval : |(n : ℚ) / m| = (c.natAbs : ℚ) / 100 := by
    rw [hval, abs_div, habsc]
    norm_num
  have hmleZ : (m : ℤ) ≤ |n| := by exact_mod_cast hmle
  have hzabs : 100 * |n| = (m : ℤ) * c.natAbs := by
    have h1 : |100 * n| = |(m : ℤ) * c| := by rw [hc]
    rw [abs_mul, abs_mul, show |(100 : ℤ)| = 100 from by decide,
      abs_of_nonneg (show (0 : ℤ) ≤ m by positivity), Int.abs_eq_natAbs c] at h1
    exact h1
  have hmposZ : (0 : ℤ) < m := by exact_mod_cast hmpos
  have hA100 : 100 ≤ c.natAbs := by
    have h2 : (m : ℤ) * 100 ≤ (m : ℤ) * c.natAbs := by
      have h3 : (100 : ℤ) * m ≤ 100 * |n| := by
        have : (0 : ℤ) ≤ 100 := by norm_num
        exact mul_le_mul_of_nonneg_left hmleZ this
      linarith [hzabs]
    have := le_of_mul_le_mul_left h2 hmposZ
    exact_mod_cast this
  have hAn : (c.natAbs : ℤ) ≤ |n| := by
    have h2 : (m : ℤ) * c.natAbs ≤ (m : ℤ) * |n| := by
      have h3 : (100 : ℤ) ≤ m := by exact_mod_cast (by omega : 100 ≤ m)
      nlinarith [abs_nonneg n]
    exact le_of_mul_le_mul_left h2 hmposZ
  have hlt : |(n : ℚ) / m| < 10 ^ 21 := by
    rw [habsval]
    have h1 : ((c.natAbs : ℤ) : ℚ) ≤ ((2 ^ 53 : ℤ) : ℚ) := by
      exact_mod_cast le_trans hAn hbound
    push_cast at h1
    linarith
  have hNle : (c.natAbs : ℚ) ≤ |(n : ℚ) / m| * 10 ^ 2 + 1 / 2 := by
    rw [habsval]
    have hx : (c.natAbs : ℚ) / 100 * 10 ^ 2 = c.natAbs := by ring
    rw [hx]
    linarith
  have hNlt : |(n : ℚ) / m| * 10 ^ 2 + 1 / 2 < c.natAbs + 1 := by
    rw [habsval]
    have hx : (c.natAbs : ℚ) / 100 * 10 ^ 2 = c.natAbs := by ring
    rw [hx]
    linarith
  rw [toFixedStr_eval 2 ((n : ℚ) / m) c.natAbs hlt hNle hNlt,
    fixedDigits_eq 2 c.natAbs (by norm_num)]
  obtain ⟨aH, r, hAeq, hrlt⟩ : ∃ aH r, c.natAbs = 100 * aH + r ∧ r < 100 :=
    ⟨c.natAbs / 100, c.natAbs % 100, by omega, Nat.mod_lt _ (by norm_num)⟩
  have hdiv : c.natAbs / 10 ^ 2 = aH := by
    rw [show (10 : ℕ) ^ 2 = 100 from rfl]
    omega
  have hmodA : c.natAbs % 10 ^ 2 = r := by
    rw [show (10 : ℕ) ^ 2 = 100 from rfl]
    omega
  have haH1 : 1 ≤ aH := by omega
  rw [hdiv, hmodA, fracRepr_two r hrlt]
  obtain ⟨f1, f0, hreq, hf0lt, hf1lt⟩ : ∃ f1 f0, r = 10 * f1 + f0 ∧ f0 < 10 ∧ f1 < 10 :=
    ⟨r / 10, r % 10, by omega, by omega, by omega⟩
  have hrdiv : r / 10 = f1 := by omega
  have hrmod : r % 10 = f0 := by omega
  rw [hrdiv, hrmod]
  have hsgneq : (if (n : ℚ) / m < 0 then ['-'] else []) =
      signChars (if (n : ℚ) / m < 0 then some true else none) := by
    by_cases h : (n : ℚ) / m < 0 <;> simp [h, signChars]
  have hdotfree : '.' ∉ (if (n : ℚ) / m < 0 then ['-'] else []) ++ natRepr aH := by
    intro hmem
    rcases List.mem_append.mp hmem with hl | hr2
    · by_cases h : (n : ℚ) / m < 0
      · rw [if_pos h] at hl
        exact absurd hl (by decide)
      · rw [if_neg h] at hl
        exact absurd hl (by decide)
    · exact natRepr_no_dot _ hr2
  -- the common value computation
  have h100 : (100 : ℚ) * n = m * c := by exact_mod_cast hc
  have hkey : (m : ℚ) * signedVal (signNeg (if (n : ℚ) / m < 0 then some true else none))
      ((aH : ℚ) + (r : ℚ) / 100) = (n : ℚ) := by
    have hAr : (aH : ℚ) + (r : ℚ) / 100 = (c.natAbs : ℚ) / 100 := by
      rw [hAeq]
      push_cast
      ring
    rw [hAr]
    by_cases h : (n : ℚ) / m < 0
    · rw [if_pos h]
      simp only [signNeg, signedVal, if_true]
      have hc0 : (c : ℚ) < 0 := by
        rw [hval] at h
        linarith
      rw [habsc, abs_of_neg hc0]
      field_simp
      linarith [h100]
    · rw [if_neg h]
      simp only [signNeg, signedVal, Bool.false_eq_true, if_false]
      have hc0 : (0 : ℚ) ≤ (c : ℚ) := by
        rw [hval] at h
        push_neg at h
        linarith
      rw [habsc, abs_of_nonneg hc0]
      field_simp
      linarith [h100]
  by_cases hr0 : r = 0
  · -- ".00": fully stripped
    have hf1z : f1 = 0 := by omega
    have hf0z : f0 = 0 := by omega
    rw [hf1z, hf0z]
    have hstrip : jsStripDecimals ((if (n : ℚ) / m < 0 then ['-'] else []) ++
        (natRepr aH ++ '.' :: [Nat.digitChar 0, Nat.digitChar 0])) =
        ((if (n : ℚ) / m < 0 then ['-'] else []) ++ natRepr aH) := by
      rw [← List.append_assoc]
      exact jsStripDecimals_allzero _ _ hdotfree (by decide)
    rw [hstrip, hsgneq]
    have hmk : (signChars (if (n : ℚ) / m < 0 then some true else none) ++ natRepr aH) ++ U =
        mkSizeStr (if (n : ℚ) / m < 0 then some true else none) (natReprDigits aH) none 0 U := by
      simp [mkSizeStr, natRepr]
    rw [hmk, parse_mkSizeStr _ _ none 0 U m (natReprDigits_lt _) (natReprDigits_ne_nil _)
      (fun fs hfs => by cases hfs) hu hune huh]
    have hv : (m : ℚ) * sizeNumValue (if (n : ℚ) / m < 0 then some true else none)
        (natReprDigits aH) none = (n : ℚ) := by
      simp only [sizeNumValue, digitsToNat_natReprDigits]
      rw [show ((aH : ℚ) + 0) = (aH : ℚ) + (r : ℚ) / 100 by rw [hr0]; norm_num]
      exact hkey
    rw [hv, Int.floor_intCast]
  · by_cases hf00 : f0 = 0
    · -- ".d0": one zero trimmed
      have hf1ne : f1 ≠ 0 := by omega
      rw [hf00]
      have hdf1 := digitChar_facts f1 hf1lt
      have hstrip : jsStripDecimals ((if (n : ℚ) / m < 0 then ['-'] else []) ++
          (natRepr aH ++ '.' :: [Nat.digitChar f1, Nat.digitChar 0])) =
          ((if (n : ℚ) / m < 0 then ['-'] else []) ++ natRepr aH) ++
            '.' :: [Nat.digitChar f1] := by
        rw [← List.append_assoc]
        rw [show [Nat.digitChar f1, Nat.digitChar 0] = [Nat.digitChar f1] ++ ['0'] from rfl]
        exact jsStripDecimals_trail _ _ _ hdotfree (by simp)
          (by
            intro ch hch
            rw [List.mem_singleton] at hch
            rw [hch]
            intro hbad
            exact hf1ne (hdf1.2.2.2.2.2.2.2.2.mp hbad))
          (by simp) (by decide)
      rw [hstrip, hsgneq]
      have hmk : ((signChars (if (n : ℚ) / m < 0 then some true else none) ++ natRepr aH) ++
          '.' :: [Nat.digitChar f1]) ++ U =
          mkSizeStr (if (n : ℚ) / m < 0 then some true else none) (natReprDigits aH)
            (some [f1]) 0 U := by
        simp [mkSizeStr, natRepr]
      rw [hmk, parse_mkSizeStr _ _ (some [f1]) 0 U m (natReprDigits_lt _)
        (natReprDigits_ne_nil _)
        (fun fs hfs => by
          rw [Option.some_inj] at hfs
          rw [← hfs]
          exact ⟨by simp, by intro e he; rw [List.mem_singleton] at he; rw [he]; exact hf1lt⟩)
        hu hune huh]
      have hv : (m : ℚ) * sizeNumValue (if (n : ℚ) / m < 0 then some true else none)
          (natReprDigits aH) (some [f1]) = (n : ℚ) := by
        rw [sizeNumValue, digitsToNat_natReprDigits]
        have hfr : ((digitsToNat [f1] : ℕ) : ℚ) / 10 ^ ([f1] : List ℕ).length =
            (r : ℚ) / 100 := by
          have h1 : digitsToNat [f1] = f1 := by simp [digitsToNat]
          have h2 : ([f1] : List ℕ).length = 1 := rfl
          rw [h1, h2, hreq, hf00]
          push_cast
          ring
        rw [hfr]
        exact hkey
      rw [hv, Int.floor_intCast]
    · -- ".dd" with nonzero last digit: untouched
      have hdf0 := digitChar_facts f0 hf0lt
      have hdf1 := digitChar_facts f1 hf1lt
      have hstrip : jsStripDecimals ((if (n : ℚ) / m < 0 then ['-'] else []) ++
          (natRepr aH ++ '.' :: [Nat.digitChar f1, Nat.digitChar f0])) =
          ((if (n : ℚ) / m < 0 then ['-'] else []) ++ natRepr aH) ++
            '.' :: [Nat.digitChar f1, Nat.digitChar f0] := by
        rw [← List.append_assoc]
        apply jsStripDecimals_dot_nomatch _ _ hdotfree
        · exact stripMatchAt_two _ _ (fun hbad => hf00 (hdf0.2.2.2.2.2.2.2.2.mp hbad))
        · intro hmem
          rcases List.mem_cons.mp hmem with h1 | h2
          · exact hdf1.2.2.2.2.1 h1.symm
          · rw [List.mem_singleton] at h2
            exact hdf0.2.2.2.2.1 h2.symm
      rw [hstrip, hsgneq]
      have hmk : ((signChars (if (n : ℚ) / m < 0 then some true else none) ++ natRepr aH) ++
          '.' :: [Nat.digitChar f1, Nat.digitChar f0]) ++ U =
          mkSizeStr (if (n : ℚ) / m < 0 then some true else none) (natReprDigits aH)
            (some [f1, f0]) 0 U := by
        simp [mkSizeStr, natRepr]
      rw [hmk, parse_mkSizeStr _ _ (some [f1, f0]) 0 U m (natReprDigits_lt _)
        (natReprDigits_ne_nil _)
        (fun fs hfs => by
          rw [Option.some_inj] at hfs
          rw [← hfs]
          refine ⟨by simp, ?_⟩
          intro e he
          rcases List.mem_cons.mp he with h1 | h2
          · rw [h1]; exact hf1lt
          · rw [List.mem_singleton] at h2
            rw [h2]
            exact hf0lt)
        hu hune huh]
      have hv : (m : ℚ) * sizeNumValue (if (n : ℚ) / m < 0 then some true else none)
          (natReprDigits aH) (some [f1, f0]) = (n : ℚ) := by
        rw [sizeNumValue, digitsToNat_natReprDigits]
        have hfr : ((digitsToNat [f1, f0] : ℕ) : ℚ) / 10 ^ ([f1, f0] : List ℕ).length =
            (r : ℚ) / 100 := by
          have h1 : digitsToNat [f1, f0] = 10 * f1 + f0 := by simp [digitsToNat]
          have h2 : ([f1, f0] : List ℕ).length = 2 := rfl
          rw [h1, h2, hreq]
          push_cast
          ring
        rw [hfr]
        exact hkey
      rw [hv, Int.floor_intCast]

/-! ## Helpers for the claim theorems -/

/-- With an in-range decimal count, `format` on a finite value always
produces a string — through the numeric pipeline when the resolved unit is
an own key of the map, and as a `"NaN"`-carrying string when it is an
inherited prototype name. -/
theorem format_fin_toStr (q : ℚ) (opts : FormatOptions) (d : ℤ)
    (hd : opts.decimalPlaces.getD 2 = d) (hd0 : 0 ≤ d) (hd100 : d ≤ 100) :
    ∃ s, format (.fin q) opts = .toStr s := by
  rcases hm : byteUnitMap ((resolveUnit opts.unit |q|).data.map Char.toLower) with _ | m
  · simp only [format, hd, hm]
    rw [if_neg (by push_neg; exact ⟨hd0, hd100⟩)]
    exact ⟨_, rfl⟩
  · rw [format_fin_pipeline q opts _ m d rfl hm hd hd0 hd100]
    exact ⟨_, rfl⟩

/-- A unit token starts with a character that cannot be mistaken for part
of the numeral (decidable form). -/
def headOk (u : List Char) : Bool :=
  match u with
  | [] => false
  | c :: _ => !c.isDigit && !(c == '.') && !(c == ' ') && !(c == '-') && !(c == '+')

theorem headOk_spec (u : List Char) (h : headOk u = true) :
    u ≠ [] ∧ ∀ ch, u.head? = some ch →
      ch.isDigit = false ∧ ch ≠ '.' ∧ ch ≠ ' ' ∧ ch ≠ '-' ∧ ch ≠ '+' := by
  match u with
  | [] => exact absurd h (by decide)
  | c :: cs =>
    refine ⟨by simp, ?_⟩
    intro ch hch
    rw [List.head?_cons, Option.some_inj] at hch
    subst hch
    rw [headOk] at h
    simp only [Bool.and_eq_true, Bool.not_eq_true', beq_eq_false_iff_ne, ne_eq,
      Bool.not_eq_true] at h
    exact ⟨h.1.1.1.1, h.1.1.1.2, h.1.1.2, h.1.2, h.2⟩

/-- Every case variant of the five strict unit tokens is recognised by the
scanner with its multiplier, and starts with a non-numeral character. -/
theorem strictUnitTokens_ok : ∀ p ∈ strictUnitTokens,
    strictUnitOf p.1 = some p.2 ∧ headOk p.1 = true := by decide

/-! ## The claims -/

/-- C1 (corrected): `format` auto-selects the unit — by comparing the
magnitude against each multiplier from largest to smallest with `>=`, a
magnitude exactly at a threshold selecting that unit and every magnitude
below 1024 using B — when `options.unit` is absent or its lower-casing
gives a falsy `map` lookup; but "does not match a known unit key" is not
enough: the plain-object lookup inherits from `Object.prototype`, so the
non-unit keys `constructor` and `__proto__` are kept instead of
auto-selected (see the counterexample).  Concretely
`format(1024) = "1KB"`, `format(1023) = "1023B"`,
`format(1048576) = "1MB"`. -/
theorem claim1_auto_unit_selection :
    (∀ (u : String) (mag : ℚ), (u = "" ∨ mapTruthy (u.data.map Char.toLower) = false) →
        resolveUnit u mag = selectUnitName mag) ∧
    (∀ mag : ℚ,
        (mag < 1024 → selectUnitName mag = "B") ∧
        (1024 ≤ mag → mag < 1048576 → selectUnitName mag = "KB") ∧
        (1048576 ≤ mag → mag < 1073741824 → selectUnitName mag = "MB") ∧
        (1073741824 ≤ mag → mag < 1099511627776 → selectUnitName mag = "GB") ∧
        (1099511627776 ≤ mag → mag < 1125899906842624 → selectUnitName mag = "TB") ∧
        (1125899906842624 ≤ mag → selectUnitName mag = "PB")) ∧
    format (.fin 1024) {} = .toStr "1KB" ∧
    format (.fin 1023) {} = .toStr "1023B" ∧
    format (.fin 1048576) {} = .toStr "1MB" := by
  refine ⟨?_, ?_, ?_, ?_, ?_⟩
  · intro u mag h
    rw [resolveUnit, if_pos h]
  · intro mag
    refine ⟨?_, ?_, ?_, ?_, ?_, ?_⟩ <;> intros <;> rw [selectUnitName] <;> split_ifs <;>
      first | rfl | (exfalso; linarith)
  · rw [format_eval_pos 1024 {} 2 1024 100 "KB" (by norm_num) rfl (by norm_num) (by norm_num)
      (by norm_num [resolveUnit, selectUnitName]) (by decide) (by norm_num) (by norm_num)
      (by rw [show (2 : ℤ).toNat = 2 from rfl]; norm_num)
      (by rw [show (2 : ℤ).toNat = 2 from rfl]; norm_num)]
    decide
  · rw [format_eval_pos 1023 {} 2 1 102300 "B" (by norm_num) rfl (by norm_num) (by norm_num)
      (by norm_num [resolveUnit, selectUnitName]) (by decide) (by norm_num) (by norm_num)
      (by rw [show (2 : ℤ).toNat = 2 from rfl]; norm_num)
      (by rw [show (2 : ℤ).toNat = 2 from rfl]; norm_num)]
    decide
  · rw [format_eval_pos 1048576 {} 2 1048576 100 "MB" (by norm_num) rfl (by norm_num)
      (by norm_num) (by norm_num [resolveUnit, selectUnitName]) (by decide) (by norm_num)
      (by norm_num)
      (by rw [show (2 : ℤ).toNat = 2 from rfl]; norm_num)
      (by rw [show (2 : ℤ).toNat = 2 from rfl]; norm_num)]
    decide

theorem claim1_auto_unit_selection_witness :
    resolveUnit "" (2048 : ℚ) = selectUnitName 2048 ∧ selectUnitName (2048 : ℚ) = "KB" :=
  ⟨claim1_auto_unit_selection.1 "" 2048 (Or.inl rfl),
   (claim1_auto_unit_selection.2.1 2048).2.1 (by norm_num) (by norm_num)⟩

/-- C1 divergence: `constructor` matches no known unit key, yet
`format(1024, {unit: "constructor"})` does not auto-select (the original
claim predicts `"1KB"`): the inherited `Object.prototype.constructor`
makes the lookup truthy, the value is divided by a non-number, and the
result is `"NaNconstructor"`. -/
theorem claim1_counterexample :
    format (.fin 1024) { unit := "constructor" } = .toStr "NaNconstructor" ∧
    byteUnitMap ("constructor".data.map Char.toLower) = none := by
  constructor
  · have hu : resolveUnit "constructor" |(1024 : ℚ)| = "constructor" := by
      rw [resolveUnit, if_neg]
      push_neg
      exact ⟨by decide, by decide⟩
    simp only [format, Option.getD_none, hu,
      show byteUnitMap (List.map Char.toLower ("constructor" : String).data) = none from
        by decide]
    rw [if_neg (by push_neg; exact ⟨by norm_num, by norm_num⟩)]
    decide
  · decide

/-- C2: for every string of the strict shape — optional sign, decimal
numeral, optional spaces, case-insensitive unit token from
{kb, mb, gb, tb, pb} — `parse` returns the floor of the multiplier times
the signed numeric value; `parse("1KB") = 1024` and
`parse("1.5GB") = 1610612736`. -/
theorem claim2_strict_parse (sgn : Option Bool) (ip : List ℕ) (fp : Option (List ℕ)) (nsp : ℕ)
    (u : List Char) (m : ℕ)
    (hip : ∀ d ∈ ip, d < 10) (hipne : ip ≠ [])
    (hfp : ∀ fs, fp = some fs → fs ≠ [] ∧ ∀ d ∈ fs, d < 10)
    (hum : (u, m) ∈ strictUnitTokens) :
    parse (.str ⟨mkSizeStr sgn ip fp nsp u⟩) =
      some (.fin ((⌊(m : ℚ) * sizeNumValue sgn ip fp⌋ : ℤ) : ℚ)) ∧
    parse (.str "1KB") = some (.fin 1024) ∧
    parse (.str "1.5GB") = some (.fin 1610612736) := by
  obtain ⟨h1, h2⟩ := strictUnitTokens_ok (u, m) hum
  obtain ⟨hne, hhead⟩ := headOk_spec u h2
  refine ⟨parse_mkSizeStr sgn ip fp nsp u m hip hipne hfp h1 hne hhead, ?_, ?_⟩
  · have h : strictMatch ("1KB".data) = some ⟨false, 1, 0, 0, 1024⟩ := by decide
    simp [parse, h, signedVal]
  · have h : strictMatch ("1.5GB".data) = some ⟨false, 1, 5, 1, 1073741824⟩ := by decide
    simp [parse, h, signedVal]
    norm_num

theorem claim2_strict_parse_witness :
    parse (.str ⟨mkSizeStr none [2] none 0 ['k', 'b']⟩) =
      some (.fin ((⌊((1024 : ℕ) : ℚ) * sizeNumValue none [2] none⌋ : ℤ) : ℚ)) ∧
    parse (.str "1KB") = some (.fin 1024) ∧
    parse (.str "1.5GB") = some (.fin 1610612736) :=
  claim2_strict_parse none [2] none 0 ['k', 'b'] 1024
    (by decide) (by decide) (fun fs hfs => by cases hfs) (by decide)

/-- C3: `format` returns `null` exactly for non-finite inputs, and — under
the amendment that the decimal count (default 2) lies in `0..100`, since
`toFixed` otherwise throws a `RangeError` instead — returns a string for
every finite value. -/
theorem claim3_format_null (v : JSNum) (opts : FormatOptions) (d : ℤ)
    (hd : opts.decimalPlaces.getD 2 = d) (hd0 : 0 ≤ d) (hd100 : d ≤ 100) :
    (format v opts = .jsNull ↔ v.isFinite = false) ∧
    (v.isFinite = true → ∃ s, format v opts = .toStr s) := by
  match v with
  | .nan => exact ⟨by simp [format, JSNum.isFinite], by simp [JSNum.isFinite]⟩
  | .posInf => exact ⟨by simp [format, JSNum.isFinite], by simp [JSNum.isFinite]⟩
  | .negInf => exact ⟨by simp [format, JSNum.isFinite], by simp [JSNum.isFinite]⟩
  | .fin q =>
    obtain ⟨s, hs⟩ := format_fin_toStr q opts d hd hd0 hd100
    exact ⟨by simp [hs, JSNum.isFinite], fun _ => ⟨s, hs⟩⟩

theorem claim3_format_null_witness :
    (format .nan {} = .jsNull ↔ (JSNum.nan).isFinite = false) ∧
    ((JSNum.nan).isFinite = true → ∃ s, format .nan {} = .toStr s) :=
  claim3_format_null .nan {} 2 rfl (by norm_num) (by norm_num)

/-- C3 divergence: a finite value with `decimalPlaces = 101` makes
`format` throw (neither `null` nor a string). -/
theorem claim3_counterexample :
    format (.fin 1) { decimalPlaces := some 101 } = .jsThrow ∧
    (JSNum.fin 1).isFinite = true := by
  constructor
  · have hu : resolveUnit "" |(1 : ℚ)| = "B" := by
      norm_num [resolveUnit, selectUnitName]
    have h : jsToFixed ((101 : ℤ)) ((1 : ℚ) / ((1 : ℕ) : ℚ)) = none := by
      rw [jsToFixed, if_pos]
      right
      norm_num
    simp only [format, Option.getD_some, hu,
      show byteUnitMap (List.map Char.toLower ("B" : String).data) = some 1 from by decide, h]
  · rfl

/-- C4 (corrected): `parse` returns `null` when the input is neither a
number nor a string — and also for the numeric input `NaN`, which the
claim overlooks; string inputs never produce `null`. -/
theorem claim4_parse_null (v : JSValue) :
    parse v = none ↔ (v = .other ∨ v = .num .nan) := by
  match v with
  | .other => simp [parse]
  | .num x =>
    by_cases hx : x = .nan
    · subst hx
      simp [parse]
    · simp [parse, hx]
  | .str s =>
    have hns : parse (.str s) ≠ none := by
      rcases hsm : strictMatch s.data with _ | p
      · rcases hpi : parseIntRadix10 s.data with _ | ⟨neg, n⟩ <;> simp [parse, hsm, hpi]
      · simp [parse, hsm]
    simp [hns]

/-- C4 divergence: the numeric input `NaN` makes `parse` return `null`. -/
theorem claim4_counterexample : parse (.num .nan) = none := by
  simp [parse]

/-- C5 (corrected): with the decimal count (default 2) in `0..100`,
`convert` never reaches the thrown-exception outcome and `format` never
throws; failure is only the `null` sentinel.  (Without that bound the
claim is false: see the counterexample.) -/
theorem claim5_no_throw (v : JSValue) (opts : FormatOptions) (d : ℤ)
    (hd : opts.decimalPlaces.getD 2 = d) (hd0 : 0 ≤ d) (hd100 : d ≤ 100) :
    convert v opts ≠ .throwOut ∧ ∀ w : JSNum, format w opts ≠ .jsThrow := by
  have hfmt : ∀ w : JSNum, format w opts ≠ .jsThrow := by
    intro w
    match w with
    | .nan => simp [format]
    | .posInf => simp [format]
    | .negInf => simp [format]
    | .fin q =>
      obtain ⟨s, hs⟩ := format_fin_toStr q opts d hd hd0 hd100
      simp [hs]
  refine ⟨?_, hfmt⟩
  match v with
  | .other => simp [convert]
  | .str s =>
    rcases hp : parse (.str s) with _ | x <;> simp [convert, hp]
  | .num x =>
    rcases hf : format x opts with s | _ | _
    · simp [convert, hf]
    · simp [convert, hf]
    · exact absurd hf (hfmt x)

theorem claim5_no_throw_witness :
    convert (.num (.fin 0)) {} ≠ .throwOut ∧ ∀ w : JSNum, format w {} ≠ .jsThrow :=
  claim5_no_throw (.num (.fin 0)) {} 2 rfl (by norm_num) (by norm_num)

/-- C5 divergence: a negative `decimalPlaces` makes `toFixed` throw a
`RangeError`, which escapes through `convert`. -/
theorem claim5_counterexample :
    convert (.num (.fin 0)) { decimalPlaces := some (-1) } = .throwOut := by
  have hf : format (.fin 0) { decimalPlaces := some (-1) } = .jsThrow := by
    have hu : resolveUnit "" |(0 : ℚ)| = "B" := by
      norm_num [resolveUnit, selectUnitName]
    have h : jsToFixed ((-1 : ℤ)) ((0 : ℚ) / ((1 : ℕ) : ℚ)) = none := by
      rw [jsToFixed, if_pos]
      left
      norm_num
    simp only [format, Option.getD_some, hu,
      show byteUnitMap (List.map Char.toLower ("B" : String).data) = some 1 from by decide, h]
  simp [convert, hf]

/-- C6: with `fixedDecimals` false, an all-zero decimal tail is removed
together with the point, and a tail of non-`0` decimals followed by
trailing zeros loses only the zeros; `format(1536, {decimalPlaces: 2}) =
"1.5KB"` and `format(2048, {decimalPlaces: 2}) = "2KB"`. -/
theorem claim6_decimal_stripping :
    (∀ pre zs : List Char, '.' ∉ pre → (∀ c ∈ zs, c = '0') →
        jsStripDecimals (pre ++ '.' :: zs) = pre) ∧
    (∀ pre a zs : List Char, '.' ∉ pre → a ≠ [] → (∀ c ∈ a, c ≠ '0') →
        zs ≠ [] → (∀ c ∈ zs, c = '0') →
        jsStripDecimals (pre ++ '.' :: (a ++ zs)) = pre ++ '.' :: a) ∧
    format (.fin 1536) { decimalPlaces := some 2 } = .toStr "1.5KB" ∧
    format (.fin 2048) { decimalPlaces := some 2 } = .toStr "2KB" := by
  refine ⟨jsStripDecimals_allzero, jsStripDecimals_trail, ?_, ?_⟩
  · rw [format_eval_pos 1536 { decimalPlaces := some 2 } 2 1024 150 "KB" (by norm_num) rfl
      (by norm_num) (by norm_num) (by norm_num [resolveUnit, selectUnitName]) (by decide)
      (by norm_num) (by norm_num)
      (by rw [show (2 : ℤ).toNat = 2 from rfl]; norm_num)
      (by rw [show (2 : ℤ).toNat = 2 from rfl]; norm_num)]
    decide
  · rw [format_eval_pos 2048 { decimalPlaces := some 2 } 2 1024 200 "KB" (by norm_num) rfl
      (by norm_num) (by norm_num) (by norm_num [resolveUnit, selectUnitName]) (by decide)
      (by norm_num) (by norm_num)
      (by rw [show (2 : ℤ).toNat = 2 from rfl]; norm_num)
      (by rw [show (2 : ℤ).toNat = 2 from rfl]; norm_num)]
    decide

theorem claim6_decimal_stripping_witness :
    jsStripDecimals (['1'] ++ '.' :: ['0', '0']) = ['1'] :=
  claim6_decimal_stripping.1 ['1'] ['0', '0'] (by decide) (by decide)

/-- C7 (corrected): the thousands pass leaves a leading sign untouched and
groups the integer digit run in threes from the right, but the fractional
part is guaranteed untouched only when it has at most three digits — a
longer fraction also receives separators (see the counterexample). -/
theorem claim7_thousands_grouping (sep : List Char) (sgn : Option Bool) (I F : List ℕ)
    (hI : ∀ d ∈ I, d < 10) (hIne : I ≠ [])
    (hF : ∀ d ∈ F, d < 10) (hFlen : F.length ≤ 3) :
    jsThousands sep (signChars sgn ++ (I.map Nat.digitChar ++ ('.' :: F.map Nat.digitChar))) =
      signChars sgn ++
        (groupRight sep (I.map Nat.digitChar) ++ ('.' :: F.map Nat.digitChar)) := by
  apply jsThousands_shape sep sgn I _ hI hIne
  · simp [List.takeWhile]
  · intro c hc
    exact jsThousandsAux_dot_frac sep F hF hFlen c

theorem claim7_thousands_grouping_witness :
    jsThousands [','] (signChars none ++
        ([1, 0, 2, 4].map Nat.digitChar ++ ('.' :: [5].map Nat.digitChar))) =
      signChars none ++
        (groupRight [','] ([1, 0, 2, 4].map Nat.digitChar) ++
          ('.' :: [5].map Nat.digitChar)) :=
  claim7_thousands_grouping [','] none [1, 0, 2, 4] [5]
    (by decide) (by decide) (by decide) (by decide)

/-- C7 divergence: with four decimal places the separator is inserted into
the fractional digits — `format(1100, {decimalPlaces: 4,
thousandsSeparator: ","})` yields `"1.0,742KB"`. -/
theorem claim7_counterexample :
    format (.fin 1100) { decimalPlaces := some 4, thousandsSeparator := "," } =
      .toStr "1.0,742KB" := by
  rw [format_eval_pos 1100 { decimalPlaces := some 4, thousandsSeparator := "," } 4 1024 10742
    "KB" (by norm_num) rfl (by norm_num) (by norm_num)
    (by norm_num [resolveUnit, selectUnitName]) (by decide) (by norm_num) (by norm_num)
    (by rw [show (4 : ℤ).toNat = 4 from rfl]; norm_num)
    (by rw [show (4 : ℤ).toNat = 4 from rfl]; norm_num)]
  decide

/-- C8: a string rejected by the strict pattern is read by radix-10
integer parsing with the unit taken as bytes: a signed digit prefix gives
its integer value, a string with no digit prefix gives not-a-number
(propagated, not replaced by `null`); `parse("100") = 100` and
`parse("3.7") = 3`. -/
theorem claim8_fallback (s : String) (hs : strictMatch s.data = none) :
    (∀ neg n, parseIntRadix10 s.data = some (neg, n) →
        parse (.str s) = some (.fin (signedVal neg (n : ℚ)))) ∧
    (parseIntRadix10 s.data = none → parse (.str s) = some .nan) ∧
    parse (.str "100") = some (.fin 100) ∧
    parse (.str "3.7") = some (.fin 3) := by
  refine ⟨?_, ?_, ?_, ?_⟩
  · intro neg n hpi
    simp only [parse, hs, hpi]
    rw [one_mul]
    congr 2
    cases neg
    · simp only [signedVal, Bool.false_eq_true, if_false]
      rw [Int.floor_natCast]
      norm_cast
    · simp only [signedVal, if_true]
      rw [show -((n : ℚ)) = (((-(n : ℤ)) : ℤ) : ℚ) by push_cast; ring, Int.floor_intCast]
  · intro hpi
    simp [parse, hs, hpi]
  · have h1 : strictMatch ("100".data) = none := by decide
    have h2 : parseIntRadix10 ("100".data) = some (false, 100) := by decide
    simp [parse, h1, h2, signedVal]
  · have h1 : strictMatch ("3.7".data) = none := by decide
    have h2 : parseIntRadix10 ("3.7".data) = some (false, 3) := by decide
    simp [parse, h1, h2, signedVal]

theorem claim8_fallback_witness : parse (.str "abc") = some .nan :=
  (claim8_fallback "abc" (by decide)).2.1 (by decide)

/-- C9: for every integer byte count `n` of double magnitude (at most
`2^53`) whose auto-selected unit represents it exactly at the default two
decimals (the multiplier divides `100 n` — in particular all `|n| < 1024`
and, in each unit's range, the multiples of `multiplier/100`),
`parse(format(n)) = n` with default options. -/
theorem claim9_roundtrip (n : ℤ)
    (hbound : |n| ≤ 2 ^ 53)
    (hdvd : ((autoMultiplier |(n : ℚ)| : ℕ) : ℤ) ∣ 100 * n) :
    ∃ s : String, format (.fin (n : ℚ)) {} = .toStr s ∧
      parse (.str s) = some (.fin (n : ℚ)) := by
  have hfmt := format_fin_basic (n : ℚ) none 2 rfl (by norm_num) (by norm_num)
  rw [show (2 : ℤ).toNat = 2 from rfl] at hfmt
  refine ⟨_, hfmt, ?_⟩
  rcases selectUnit_cases |(n : ℚ)| with hcase | hcase | hcase | hcase | hcase | hcase
  all_goals obtain ⟨hname, hmul, hge⟩ := hcase
  · rw [hname, hmul, Nat.cast_one, div_one, show ("B" : String).data = ['B'] from rfl]
    refine roundtrip_core_b n ?_
    have h1 : ((|n| : ℤ) : ℚ) ≤ (((2 : ℤ) ^ 53 : ℤ) : ℚ) := by exact_mod_cast hbound
    rw [Int.cast_abs] at h1
    have h2 : (((2 : ℤ) ^ 53 : ℤ) : ℚ) < 10 ^ 21 := by norm_num
    linarith
  · rw [hmul] at hdvd
    obtain ⟨c, hc⟩ := hdvd
    rw [hname, hmul, show ("KB" : String).data = ['K', 'B'] from rfl]
    exact roundtrip_core n c 1024 ['K', 'B'] hc (by norm_num) (by exact_mod_cast hge) hbound
      (by decide) (by decide) (head_cond_of_cons 'K' ['B'] (by decide))
  · rw [hmul] at hdvd
    obtain ⟨c, hc⟩ := hdvd
    rw [hname, hmul, show ("MB" : String).data = ['M', 'B'] from rfl]
    exact roundtrip_core n c 1048576 ['M', 'B'] hc (by norm_num) (by exact_mod_cast hge) hbound
      (by decide) (by decide) (head_cond_of_cons 'M' ['B'] (by decide))
  · rw [hmul] at hdvd
    obtain ⟨c, hc⟩ := hdvd
    rw [hname, hmul, show ("GB" : String).data = ['G', 'B'] from rfl]
    exact roundtrip_core n c 1073741824 ['G', 'B'] hc (by norm_num) (by exact_mod_cast hge)
      hbound (by decide) (by decide) (head_cond_of_cons 'G' ['B'] (by decide))
  · rw [hmul] at hdvd
    obtain ⟨c, hc⟩ := hdvd
    rw [hname, hmul, show ("TB" : String).data = ['T', 'B'] from rfl]
    exact roundtrip_core n c 1099511627776 ['T', 'B'] hc (by norm_num) (by exact_mod_cast hge)
      hbound (by decide) (by decide) (head_cond_of_cons 'T' ['B'] (by decide))
  · rw [hmul] at hdvd
    obtain ⟨c, hc⟩ := hdvd
    rw [hname, hmul, show ("PB" : String).data = ['P', 'B'] from rfl]
    exact roundtrip_core n c 1125899906842624 ['P', 'B'] hc (by norm_num)
      (by exact_mod_cast hge) hbound (by decide) (by decide)
      (head_cond_of_cons 'P' ['B'] (by decide))

theorem claim9_roundtrip_witness :
    |(1536 : ℤ)| ≤ 2 ^ 53 ∧
    ((autoMultiplier |((1536 : ℤ) : ℚ)| : ℕ) : ℤ) ∣ 100 * (1536 : ℤ) ∧
    ∃ s : String, format (.fin ((1536 : ℤ) : ℚ)) {} = .toStr s ∧
      parse (.str s) = some (.fin ((1536 : ℤ) : ℚ)) := by
  have hm : autoMultiplier |((1536 : ℤ) : ℚ)| = 1024 := by
    rw [show |((1536 : ℤ) : ℚ)| = (1536 : ℚ) from by
      rw [abs_of_nonneg (by norm_num : (0 : ℚ) ≤ ((1536 : ℤ) : ℚ))]; norm_num]
    rw [autoMultiplier]
    norm_num
  have hdvd : ((autoMultiplier |((1536 : ℤ) : ℚ)| : ℕ) : ℤ) ∣ 100 * (1536 : ℤ) := by
    rw [hm]
    norm_num
  exact ⟨by norm_num, hdvd, claim9_roundtrip 1536 (by norm_num) hdvd⟩

/-- C10 (corrected): an explicit `decimalPlaces` of 0 is honoured (the
default of 2 applies only when the option is absent), and for every
finite value whose scaled magnitude is below `10^21` the number is
rendered as its rounded integer — a sign, bare digits, the unit — with no
decimal point anywhere in the digits; but not for every finite value:
at `10^21` and above, `toFixed(0)` falls back to `ToString`'s exponential
notation, which can contain a decimal point (see the counterexample). -/
theorem claim10_zero_decimals (q : ℚ)
    (hq : |q / (autoMultiplier |q| : ℚ)| < 10 ^ 21) :
    format (.fin q) { decimalPlaces := some 0 } =
      .toStr ⟨(if q / (autoMultiplier |q| : ℚ) < 0 then ['-'] else []) ++
        (natRepr ⌊|q / (autoMultiplier |q| : ℚ)| + 1 / 2⌋.toNat ++
          (selectUnitName |q|).data)⟩ ∧
    '.' ∉ natRepr ⌊|q / (autoMultiplier |q| : ℚ)| + 1 / 2⌋.toNat := by
  refine ⟨?_, natRepr_no_dot _⟩
  rw [format_fin_basic q (some 0) 0 rfl (by norm_num) (by norm_num),
    show (0 : ℤ).toNat = 0 from rfl, toFixedStr_zero _ hq, pow_zero, mul_one]
  have hnd : '.' ∉ (if q / (autoMultiplier |q| : ℚ) < 0 then ['-'] else []) ++
      natRepr ⌊|q / (autoMultiplier |q| : ℚ)| + 1 / 2⌋.toNat := by
    intro hmem
    rcases List.mem_append.mp hmem with hl | hr
    · by_cases h : q / (autoMultiplier |q| : ℚ) < 0
      · rw [if_pos h] at hl
        exact absurd hl (by decide)
      · rw [if_neg h] at hl
        exact absurd hl (by decide)
    · exact natRepr_no_dot _ hr
  rw [jsStripDecimals_no_dot _ hnd, List.append_assoc]

theorem claim10_zero_decimals_witness :
    |(0 : ℚ) / (autoMultiplier |(0 : ℚ)| : ℚ)| < 10 ^ 21 ∧
    (format (.fin 0) { decimalPlaces := some 0 } =
      .toStr ⟨(if (0 : ℚ) / (autoMultiplier |(0 : ℚ)| : ℚ) < 0 then ['-'] else []) ++
        (natRepr ⌊|(0 : ℚ) / (autoMultiplier |(0 : ℚ)| : ℚ)| + 1 / 2⌋.toNat ++
          (selectUnitName |(0 : ℚ)|).data)⟩ ∧
    '.' ∉ natRepr ⌊|(0 : ℚ) / (autoMultiplier |(0 : ℚ)| : ℚ)| + 1 / 2⌋.toNat) := by
  have hq : |(0 : ℚ) / (autoMultiplier |(0 : ℚ)| : ℚ)| < 10 ^ 21 := by
    rw [zero_div, abs_zero]
    norm_num
  exact ⟨hq, claim10_zero_decimals 0 hq⟩

/-- C10 divergence: `1688849860263936000000000000000000000` is
`1.5·10^21 · 2^50` (an exact double: mantissa `3 · 5^21 < 2^53`); the
auto-selected unit is PB and the scaled value `1.5·10^21` is at or above
`10^21`, so `toFixed(0)` falls back to exponential `ToString` and
`format(·, {decimalPlaces: 0})` is `"1.5e+21PB"` — a decimal point in the
digits despite `decimalPlaces = 0`. -/
theorem claim10_counterexample :
    format (.fin 1688849860263936000000000000000000000) { decimalPlaces := some 0 } =
      .toStr "1.5e+21PB" := by
  have habs : |(1688849860263936000000000000000000000 : ℚ)| =
      1688849860263936000000000000000000000 := abs_of_nonneg (by norm_num)
  have hmul : autoMultiplier (1688849860263936000000000000000000000 : ℚ) =
      1125899906842624 := by
    rw [autoMultiplier, if_pos (by norm_num)]
  have hname : selectUnitName (1688849860263936000000000000000000000 : ℚ) = "PB" := by
    rw [selectUnitName, if_pos (by norm_num)]
  rw [format_fin_basic 1688849860263936000000000000000000000 (some 0) 0 rfl (by norm_num)
    (by norm_num), show (0 : ℤ).toNat = 0 from rfl, habs, hmul, hname]
  have hval : (1688849860263936000000000000000000000 : ℚ) / ((1125899906842624 : ℕ) : ℚ) =
      1500000000000000000000 := by
    norm_num
  rw [hval]
  have habs2 : |(1500000000000000000000 : ℚ)| = 1500000000000000000000 :=
    abs_of_nonneg (by norm_num)
  have htf : toFixedStr 0 (1500000000000000000000 : ℚ) =
      expRepr 1500000000000000000000 := by
    simp only [toFixedStr, habs2]
    rw [if_pos (by norm_num : (1500000000000000000000 : ℚ) ≥ 10 ^ 21),
      if_neg (by norm_num : ¬(1500000000000000000000 : ℚ) < 0),
      show ⌊(1500000000000000000000 : ℚ)⌋ = 1500000000000000000000 from by norm_num,
      show ((1500000000000000000000 : ℤ)).toNat = 1500000000000000000000 from rfl,
      List.nil_append]
  rw [htf]
  decide
